import Mathlib

/-
Verification of the manual-acquisition and maintenance-extraction pipeline
of the household-manager repository (src/household/utils.py).

Modelling conventions:
* A Python `str` is modelled as `PyStr := List Char`.  Where the Python code
  operates on the UTF-8 byte level (percent-encoding and -decoding), a `Char`
  of the model stands for one byte, so `unquoteList` maps an escape `%XX` to
  the single character with code `XX`; ASCII text is represented identically
  in both readings.
* Pure string algorithms (URL validation, redirect extraction, maintenance
  mining, label parsing) are translated function by function from the source.
  Python regular expressions are translated into explicit scanners whose
  semantics match the concrete pattern used at the call site; `\w`, `\s` and
  `\b` are modelled with their ASCII meaning.
* Network and library effects (requests, BeautifulSoup, OpenAI, PDF readers)
  are modelled by an explicit environment supplying the data the code reads
  at those boundaries: an HTTP response is an abstract record of status code,
  anchor list and regex-match lists, over-approximating every page the code
  could observe.  An exception raised by an effectful call is modelled as the
  environment returning `none`; an exception escaping a modelled function is
  an `Except.error` result.
-/

set_option maxHeartbeats 1000000
set_option linter.unusedVariables false

abbrev PyStr := List Char

/-! ## Basic Python string primitives -/

/-- Python `str.lower` (ASCII). -/
def pyLower (l : PyStr) : PyStr := l.map Char.toLower

/-- Python `str.upper` (ASCII). -/
def pyUpper (l : PyStr) : PyStr := l.map Char.toUpper

/-- Python substring containment `pat in l`. -/
def pyIn (pat : PyStr) : PyStr → Bool
  | [] => pat.isPrefixOf []
  | c :: rest => pat.isPrefixOf (c :: rest) || pyIn pat rest

/-- Python whitespace class (the characters matched by `\s` and stripped by
`str.strip()`): space, tab, newline, carriage return, form feed, vertical tab. -/
def pyIsSpace (c : Char) : Bool :=
  c = ' ' || c = '\t' || c = '\n' || c = '\x0d' || c = '\x0c' || c = '\x0b'

/-- Python `str.strip()` with no argument. -/
def pyStrip (l : PyStr) : PyStr :=
  ((l.dropWhile pyIsSpace).reverse.dropWhile pyIsSpace).reverse

/-- Python `str.split()` with no argument: split on whitespace runs,
dropping empty pieces.  Written as a single left-to-right scan (with the
current word accumulated in reverse) so the kernel can evaluate it. -/
def pyWordsGo (cur : PyStr) : PyStr → List PyStr
  | [] => if cur = [] then [] else [cur.reverse]
  | c :: rest =>
    if pyIsSpace c then
      if cur = [] then pyWordsGo [] rest else cur.reverse :: pyWordsGo [] rest
    else pyWordsGo (c :: cur) rest

def pyWords (l : PyStr) : List PyStr := pyWordsGo [] l

/-- Python `str.title` (ASCII): a letter is upper-cased after a non-letter
and lower-cased after a letter. -/
def pyTitleGo (prevAlpha : Bool) : PyStr → PyStr
  | [] => []
  | c :: rest =>
    (if c.isAlpha then (if prevAlpha then c.toLower else c.toUpper) else c) ::
      pyTitleGo c.isAlpha rest

def pyTitle (l : PyStr) : PyStr := pyTitleGo false l

/-! ## Percent decoding and encoding (byte level) -/

def isHexDigitCh (c : Char) : Bool :=
  c.isDigit || ('a' ≤ c && c ≤ 'f') || ('A' ≤ c && c ≤ 'F')

def hexVal (c : Char) : Nat :=
  if c.isDigit then c.toNat - 48
  else if 'a' ≤ c && c ≤ 'f' then c.toNat - 87
  else c.toNat - 55

/-- Python `urllib.parse.unquote` at the byte level: each valid `%XX`
escape becomes the byte `XX`; invalid escapes are kept verbatim. -/
def unquoteGo : Nat → PyStr → PyStr
  | _, [] => []
  | fuel + 1, c :: rest =>
    if c = '%' then
      match rest with
      | h1 :: h2 :: rest2 =>
        if isHexDigitCh h1 && isHexDigitCh h2 then
          Char.ofNat (16 * hexVal h1 + hexVal h2) :: unquoteGo fuel rest2
        else '%' :: unquoteGo fuel rest
      | _ => '%' :: unquoteGo fuel rest
    else c :: unquoteGo fuel rest
  | 0, l => l

/-- Every step of `unquoteGo` consumes at least one character, so fuel
equal to the length makes the fuel-out case unreachable; the fuel only
serves to make the recursion structural (kernel-computable). -/
def unquoteList (l : PyStr) : PyStr := unquoteGo l.length l

/-- Characters Python `urllib.parse.quote` never escapes (besides `safe`):
ASCII letters, digits, and `_.-~`. -/
def pyAlwaysSafe (c : Char) : Bool :=
  c.isAlphanum || c = '_' || c = '.' || c = '-' || c = '~'

def toHexDigit (n : Nat) : Char :=
  if n < 10 then Char.ofNat (48 + n) else Char.ofNat (55 + n)

def pctEncode (c : Char) : PyStr :=
  ['%', toHexDigit (c.toNat / 16), toHexDigit (c.toNat % 16)]

/-- Python `urllib.parse.quote` with the default `safe='/'` (byte level). -/
def pyQuote (l : PyStr) : PyStr :=
  l.flatMap fun c => if pyAlwaysSafe c || c = '/' then [c] else pctEncode c

/-- Python `urllib.parse.quote_plus`: space becomes `+`, `/` is escaped. -/
def pyQuotePlus (l : PyStr) : PyStr :=
  l.flatMap fun c =>
    if c = ' ' then ['+'] else if pyAlwaysSafe c then [c] else pctEncode c

/-- Python `urllib.parse.unquote_plus`: `+` becomes space, then unquote. -/
def pyUnquotePlus (l : PyStr) : PyStr :=
  unquoteList (l.map fun c => if c = '+' then ' ' else c)

/-! ## urllib.parse.urlparse -/

structure UrlParsed where
  scheme : PyStr
  netloc : PyStr
  path : PyStr
  params : PyStr
  query : PyStr
  fragment : PyStr
deriving Repr, DecidableEq

def schemeChar (c : Char) : Bool :=
  c.isAlpha || c.isDigit || c = '+' || c = '-' || c = '.'

/-- Python `split(sep, 1)` for a separator known to occur:
the pieces before and after the first occurrence of `sep`. -/
def splitFirstOn (sep : Char) (l : PyStr) : PyStr × PyStr :=
  (l.takeWhile (fun c => c != sep), (l.dropWhile (fun c => c != sep)).drop 1)

/-- Scheme extraction of CPython `urlsplit`: a scheme is present when the
first `:` is preceded by a letter followed by scheme characters. -/
def pyUrlsplitScheme (l : PyStr) : PyStr × PyStr :=
  match l.findIdx? (· == ':') with
  | some i =>
    if 0 < i && (l.headD ' ').isAlpha && ((l.take i).drop 1).all schemeChar then
      ((l.take i).map Char.toLower, l.drop (i + 1))
    else ([], l)
  | none => ([], l)

/-- CPython `urlsplit`: scheme, then `//netloc` up to `/?#`, then fragment
after the first `#`, then query after the first `?`. -/
def pyUrlsplit (l : PyStr) : UrlParsed :=
  let p1 := pyUrlsplitScheme l
  let p2 : PyStr × PyStr :=
    if "//".data.isPrefixOf p1.2 then
      let r := p1.2.drop 2
      let nl := r.takeWhile (fun c => c != '/' && c != '?' && c != '#')
      (nl, r.drop nl.length)
    else ([], p1.2)
  let p3 : PyStr × PyStr :=
    if p2.2.contains '#' then splitFirstOn '#' p2.2 else (p2.2, [])
  let p4 : PyStr × PyStr :=
    if p3.1.contains '?' then splitFirstOn '?' p3.1 else (p3.1, [])
  ⟨p1.1, p2.1, p4.1, [], p4.2, p3.2⟩

/-- First index at which `pat` occurs in the list. -/
def findSub (pat : PyStr) : PyStr → Option Nat
  | [] => if pat.isPrefixOf ([] : PyStr) then some 0 else none
  | c :: rest =>
    if pat.isPrefixOf (c :: rest) then some 0 else (findSub pat rest).map (· + 1)

/-- First index of character `c` at or after index `j` (Python `find(c, j)`). -/
def pyFindFrom (c : Char) (j : Nat) (l : PyStr) : Option Nat :=
  ((l.drop j).findIdx? (· == c)).map (j + ·)

/-- Index of the last occurrence of `c` (Python `rfind`). -/
def pyRFind (c : Char) (l : PyStr) : Option Nat :=
  (l.reverse.findIdx? (· == c)).map (l.length - 1 - ·)

/-- CPython `_splitparams`: split `;params` off the last path segment. -/
def pySplitParams (u : PyStr) : PyStr × PyStr :=
  let i? : Option Nat :=
    if u.contains '/' then pyFindFrom ';' ((pyRFind '/' u).getD 0) u
    else u.findIdx? (· == ';')
  match i? with
  | some i => (u.take i, u.drop (i + 1))
  | none => (u, [])

/-- Python `urllib.parse.urlparse`: `urlsplit` plus params splitting. -/
def pyUrlparse (l : PyStr) : UrlParsed :=
  let s := pyUrlsplit l
  if s.path.contains ';' then
    let pr := pySplitParams s.path
    { s with path := pr.1, params := pr.2 }
  else s

/-! ## is_valid_pdf_url (src/household/utils.py lines 31-91) -/

/-- Translation of `is_valid_pdf_url`: reject empty, non-http(s), dotless
hosts, search-engine and redirect markers, then require a PDF indicator in
the path and the absence of search query markers.  The URL is
percent-decoded first, exactly as the source does. -/
def is_valid_pdf_url (url0 : PyStr) : Bool :=
  if url0 = [] then false
  else
    let url := unquoteList url0
    if !("http://".data.isPrefixOf url || "https://".data.isPrefixOf url) then false
    else
      let parsed := pyUrlparse url
      if parsed.netloc = [] || !(parsed.netloc.contains '.') then false
      else if pyIn "google.com/search".data (pyLower url) ||
        pyIn "google.com/url".data (pyLower url) then false
      else if pyIn "/url?q=".data url || pyIn "/url?url=".data url then false
      else if pyIn "redirect".data (pyLower parsed.path) then false
      else
        let pathLower := pyLower parsed.path
        let urlLower := pyLower url
        if !(".pdf".data.isSuffixOf pathLower || pyIn "/pdf".data pathLower) then false
        else if pyIn "search?q=".data urlLower || pyIn "sca_esv=".data urlLower ||
          pyIn "source=lnms".data urlLower then false
        else true

/-! ## extract_pdf_url_from_google_link (utils.py lines 94-136) -/

/-- Python `str.split(sep)` for a non-empty separator (leftmost,
non-overlapping). -/
def pySplitGo (sep : PyStr) (acc : PyStr) : PyStr → List PyStr
  | [] => [acc.reverse]
  | c :: rest =>
    if sep != [] && sep.isPrefixOf (c :: rest) then
      acc.reverse :: pySplitGo sep [] ((c :: rest).drop sep.length)
    else pySplitGo sep (c :: acc) rest
termination_by l => l.length
decreasing_by
  · rename_i h
    simp only [List.length_drop, List.length_cons]
    have hs : sep ≠ [] := by
      simp only [Bool.and_eq_true, bne_iff_ne, ne_eq] at h
      exact h.1
    have : 0 < sep.length := List.length_pos.mpr hs
    omega
  · simp

def pySplit (sep l : PyStr) : List PyStr := pySplitGo sep [] l

/-- Python `urllib.parse.parse_qsl` with default arguments: split the query
on `&`, keep fields with a `=` and a non-empty value, unquote-plus both
sides. -/
def parseQsl (qs : PyStr) : List (PyStr × PyStr) :=
  (pySplit "&".data qs).filterMap fun nv =>
    if nv = [] then none
    else
      match findSub "=".data nv with
      | none => none
      | some i =>
        let value := nv.drop (i + 1)
        if value = [] then none
        else some (pyUnquotePlus (nv.take i), pyUnquotePlus value)

/-- Translation of `extract_pdf_url_from_google_link`: the `/url?q=` redirect
branch, the `url=` query-parameter branch, then direct http(s) links.  Every
returned URL has passed `is_valid_pdf_url`. -/
def extract_pdf_url_from_google_link (href : PyStr) : Option PyStr :=
  if href = [] then none
  else
    let b1 : Option PyStr :=
      if "/url?q=".data.isPrefixOf href then
        match (pySplit "/url?q=".data href).get? 1 with
        | none => none
        | some seg =>
          let actual := unquoteList ((pySplit "&".data seg).headD [])
          if is_valid_pdf_url actual then some actual else none
      else none
    match b1 with
    | some u => some u
    | none =>
      let b2 : Option PyStr :=
        if pyIn "/url?".data href && pyIn "url=".data href then
          match (parseQsl (pyUrlparse href).query).find? (fun p => p.1 == "url".data) with
          | some p =>
            let actual := unquoteList p.2
            if is_valid_pdf_url actual then some actual else none
          | none => none
        else none
      match b2 with
      | some u => some u
      | none =>
        if ("http://".data.isPrefixOf href || "https://".data.isPrefixOf href) &&
            is_valid_pdf_url href then
          some href
        else none

/-! ## extract_text_from_pdf (utils.py lines 422-448)

The PDF libraries are abstracted by an environment: `plumberPages` are the
`page.extract_text()` results the primary pdfplumber loop sees before it
either finishes (`plumberFail = false`, all pages listed) or raises
(`plumberFail = true`, only the pages processed before the exception are
listed); `pypdfPages`/`pypdfFail` play the same role for the PyPDF2
fallback, whose pages are plain strings. -/

structure PdfEnv where
  plumberPages : List (Option PyStr)
  plumberFail : Bool
  pypdfPages : List PyStr
  pypdfFail : Bool

/-- Body of the primary (pdfplumber) page loop: append `page_text + "\n"`
when the page text is truthy (`if page_text:` skips both `None` and the
empty string). -/
def plumberStep (acc : PyStr) (p? : Option PyStr) : PyStr :=
  match p? with
  | some p => if p != [] then acc ++ p ++ ['\n'] else acc
  | none => acc

/-- Body of the fallback (PyPDF2) page loop: `text += page.extract_text() + "\n"`
with no emptiness check. -/
def pypdfStep (acc : PyStr) (p : PyStr) : PyStr := acc ++ p ++ ['\n']

/-- Translation of `extract_text_from_pdf`.  The accumulator `text` starts
empty, the primary loop appends `page_text + "\n"` for truthy page texts,
and on a primary exception the fallback loop keeps appending to the same
accumulator, unconditionally adding `"\n"` after every page; a fallback
exception returns the empty string. -/
def extract_text_from_pdf (env : PdfEnv) : PyStr :=
  let t1 := env.plumberPages.foldl plumberStep []
  if !env.plumberFail then t1
  else if env.pypdfFail then []
  else env.pypdfPages.foldl pypdfStep t1

/-! ## extract_maintenance_info (utils.py lines 451-526) -/

structure MaintenanceTask where
  task_name : PyStr
  description : PyStr
  frequency : PyStr
  extracted_from_manual : Bool
deriving Repr, DecidableEq

/-- Verb stems of the six `maintenance_patterns` regexes. -/
def maintenanceStems : List PyStr :=
  ["clean".data, "maintain".data, "inspect".data, "replace".data,
   "filter".data, "lubricat".data]

/-- Frequency-word alternation `(?:monthly|weekly|daily|quarterly|annually|yearly)`. -/
def freqWordList : List PyStr :=
  ["monthly".data, "weekly".data, "daily".data, "quarterly".data,
   "annually".data, "yearly".data]

def freqWordAt (l : PyStr) : Bool := freqWordList.any (fun w => w.isPrefixOf l)

/-- Scanner for `[^.]*?(?:monthly|...)`: from the current position, a
frequency word must start before the first `.`. -/
def freqAfter : PyStr → Bool
  | [] => false
  | c :: rest => freqWordAt (c :: rest) || (c != '.' && freqAfter rest)

/-- Scanner for `re.search(r'<stem>[^.]*?(?:monthly|...)', sentence, IGNORECASE)`
on the lower-cased sentence: the pattern matches somewhere iff the stem
occurs with a frequency word after it and no `.` in between. -/
def stemSearch (stem : PyStr) : PyStr → Bool
  | [] => false
  | c :: rest =>
    (stem.isPrefixOf (c :: rest) && freqAfter ((c :: rest).drop stem.length)) ||
      stemSearch stem rest

/-- The `frequency_map` of the source, in insertion order. -/
def freqPairs : List (PyStr × PyStr) :=
  [("daily".data, "daily".data), ("weekly".data, "weekly".data),
   ("monthly".data, "monthly".data), ("quarterly".data, "quarterly".data),
   ("semi-annual".data, "semi_annual".data), ("semi annual".data, "semi_annual".data),
   ("annually".data, "annual".data), ("yearly".data, "annual".data),
   ("year".data, "annual".data)]

/-- First frequency key contained in the lower-cased sentence wins;
default is `monthly`. -/
def findFreq : List (PyStr × PyStr) → PyStr → PyStr
  | [], _ => "monthly".data
  | p :: rest, sl => if pyIn p.1 sl then p.2 else findFreq rest sl

/-- Python `' '.join(ws)`. -/
def joinSpace : List PyStr → PyStr
  | [] => []
  | [w] => w
  | w :: ws => w ++ ' ' :: joinSpace ws

/-- Word characters of the ASCII `\w` class. -/
def isWordCh (c : Char) : Bool := c.isAlphanum || c = '_'

/-- The `task_name` before truncation: first five whitespace-delimited
words, joined by single spaces. -/
def taskNameRaw (sentence : PyStr) : PyStr := joinSpace ((pyWords sentence).take 5)

/-- The 47-characters-plus-ellipsis truncation applied when the joined
name exceeds 50 characters. -/
def taskNameTrunc (sentence : PyStr) : PyStr :=
  if (taskNameRaw sentence).length > 50 then
    (taskNameRaw sentence).take 47 ++ "...".data
  else taskNameRaw sentence

/-- The `re.sub(r'[^\w\s-]', '', task_name)` clean-up: keep only word
characters, whitespace and hyphens. -/
def taskNameClean (sentence : PyStr) : PyStr :=
  (taskNameTrunc sentence).filter (fun c => isWordCh c || pyIsSpace c || c = '-')

/-- Building one task dictionary from a matching sentence: first five
words, 47-char truncation with ellipsis, `re.sub(r'[^\w\s-]', '', ...)`
clean-up, description capped at 500 characters. -/
def buildTask (sentence : PyStr) : MaintenanceTask :=
  { task_name := if taskNameClean sentence = [] then "Maintenance Task".data
      else taskNameClean sentence,
    description := sentence.take 500,
    frequency := findFreq freqPairs (pyLower sentence),
    extracted_from_manual := true }

/-- Scanner for `re.split(r'[.!?]\s+', text)`: a sentence ends at `.`/`!`/`?`
followed by at least one whitespace character; the whitespace run is
consumed greedily (the `skipping` flag marks being inside that run).
Written as a single scan so the kernel can evaluate it. -/
def splitSentencesGo (skipping : Bool) (acc : PyStr) : PyStr → List PyStr
  | [] => [acc.reverse]
  | c :: rest =>
    if skipping && pyIsSpace c then splitSentencesGo true acc rest
    else if (c = '.' || c = '!' || c = '?') &&
        (match rest.head? with | some w => pyIsSpace w | none => false) then
      acc.reverse :: splitSentencesGo true [] rest
    else splitSentencesGo false (c :: acc) rest

def splitSentences (text : PyStr) : List PyStr := splitSentencesGo false [] text

/-- Per-sentence step of the miner loop: strip, drop short sentences, and
build a task when the first matching pattern fires (the built task does not
depend on which pattern fired). -/
def sentenceTask (sentence0 : PyStr) : Option MaintenanceTask :=
  let sentence := pyStrip sentence0
  if sentence.length < 20 then none
  else if maintenanceStems.any (fun st => stemSearch st (pyLower sentence)) then
    some (buildTask sentence)
  else none

/-- The `tasks` list before deduplication. -/
def rawTasks (text : PyStr) : List MaintenanceTask :=
  (splitSentences text).filterMap sentenceTask

def taskKey (t : MaintenanceTask) : PyStr × PyStr := (pyLower t.task_name, t.frequency)

/-- The `seen`-set deduplication loop of the source. -/
def dedupTasks (seen : List (PyStr × PyStr)) : List MaintenanceTask → List MaintenanceTask
  | [] => []
  | t :: rest =>
    if taskKey t ∈ seen then dedupTasks seen rest
    else t :: dedupTasks (taskKey t :: seen) rest

/-- Translation of `extract_maintenance_info`. -/
def extract_maintenance_info (text : PyStr) : List MaintenanceTask :=
  (dedupTasks [] (rawTasks text)).take 10

/-! ## parse_appliance_info_from_text (utils.py lines 759-851) -/

structure LabelInfo where
  brand : Option PyStr
  model_number : Option PyStr
  serial_number : Option PyStr
deriving Repr, DecidableEq

/-- The fixed brand vocabulary, in source order. -/
def applianceBrands : List PyStr :=
  ["SAMSUNG".data, "LG".data, "WHIRLPOOL".data, "MAYTAG".data,
   "KITCHENAID".data, "BOSCH".data, "GE".data, "GENERAL ELECTRIC".data,
   "FRIGIDAIRE".data, "ELECTROLUX".data, "KENMORE".data, "PANASONIC".data,
   "SHARP".data, "TOSHIBA".data, "HITACHI".data, "DAIKIN".data,
   "CARRIER".data, "TRANE".data, "LENNOX".data, "RHEEM".data,
   "A.O. SMITH".data, "BRADFORD WHITE".data]

/-- First brand (in list order) occurring as a substring wins, stored in
title case. -/
def findBrand : List PyStr → PyStr → Option PyStr
  | [], _ => none
  | b :: bs, t => if pyIn b t then some (pyTitle b) else findBrand bs t

/-- A token of the literal/char-class-plus regexes used by the label
parser.  Adjacent classes at the call sites are disjoint, so greedy
maximal munch is exact. -/
inductive RTok where
  | lit (s : PyStr)
  | plus (cls : Char → Bool)

def consumeToks : List RTok → PyStr → Option PyStr
  | [], l => some l
  | .lit s :: ts, l => if s.isPrefixOf l then consumeToks ts (l.drop s.length) else none
  | .plus p :: ts, l =>
    let r := l.takeWhile p
    if r = [] then none else consumeToks ts (l.drop r.length)

/-- Trailing capture `([cls]+)`: the maximal non-empty run. -/
def capPlus (cls : Char → Bool) (l : PyStr) : Option PyStr :=
  let r := l.takeWhile cls
  if r = [] then none else some r

/-- Trailing capture `([cls]{lo,hi})`: the maximal run truncated at `hi`,
requiring at least `lo`. -/
def capRange (cls : Char → Bool) (lo hi : Nat) (l : PyStr) : Option PyStr :=
  let r := l.takeWhile cls
  if r.length < lo then none else some (r.take hi)

/-- The leftmost position where the token prefix and the capture both
succeed (re.search semantics). -/
def searchToksCap (toks : List RTok) (cap : PyStr → Option PyStr) : PyStr → Option PyStr
  | [] => (consumeToks toks []).bind cap
  | c :: rest =>
    match (consumeToks toks (c :: rest)).bind cap with
    | some r => some r
    | none => searchToksCap toks cap rest

/-- The separator class `[:\s#]`. -/
def sepCls (c : Char) : Bool := c = ':' || pyIsSpace c || c = '#'

/-- The capture class `[A-Z0-9\-]`. -/
def capModelCls (c : Char) : Bool := ('A' ≤ c && c ≤ 'Z') || c.isDigit || c = '-'

/-- The four `model_patterns`, in source order. -/
def modelPatterns : List (List RTok) :=
  [[.lit "MODEL".data, .plus sepCls],
   [.lit "MODEL".data, .plus pyIsSpace, .lit "NO".data, .plus sepCls],
   [.lit "MODEL".data, .plus pyIsSpace, .lit "NUMBER".data, .plus sepCls],
   [.lit "MOD".data, .plus sepCls]]

/-- The model-pattern loop: first match whose stripped capture has length
3 to 30 wins; a failed length check moves on to the next pattern. -/
def findModel : List (List RTok) → PyStr → Option PyStr
  | [], _ => none
  | p :: ps, t =>
    match searchToksCap p (capPlus capModelCls) t with
    | some m =>
      let m1 := pyStrip m
      if 3 ≤ m1.length && m1.length ≤ 30 then some m1 else findModel ps t
    | none => findModel ps t

/-- The five `serial_patterns`, in source order. -/
def serialPatterns : List (List RTok) :=
  [[.lit "SN".data, .plus sepCls],
   [.lit "S/N".data, .plus sepCls],
   [.lit "SERIAL".data, .plus pyIsSpace, .lit "NO".data, .plus sepCls],
   [.lit "SERIAL".data, .plus sepCls],
   [.lit "SERIAL".data, .plus pyIsSpace, .lit "NUMBER".data, .plus sepCls]]

/-- The serial-pattern loop with the `NUMBER`/`NO`/`NUM` rejection list and
the length ≥ 5 requirement; rejection moves on to the next pattern. -/
def findSerial : List (List RTok) → PyStr → Option PyStr
  | [], _ => none
  | p :: ps, t =>
    match searchToksCap p (capRange capModelCls 5 50) t with
    | some s0 =>
      let s := pyStrip s0
      if s != [] && s != "NUMBER".data && s != "NO".data && s != "NUM".data &&
          5 ≤ s.length then some s
      else findSerial ps t
    | none => findSerial ps t

/-- Word-boundary test of `\b`: exactly one neighbour is a word character
(`none` stands for the string edge). -/
def boundaryOK (prev next : Option Char) : Bool :=
  (match prev with | none => false | some c => isWordCh c) !=
    (match next with | none => false | some c => isWordCh c)

def isUpperAZ (c : Char) : Bool := 'A' ≤ c && c ≤ 'Z'

def isUpperDigit (c : Char) : Bool := isUpperAZ c || c.isDigit

/-- One backtracking attempt of
`\b([A-Z]{2,4}[-]?[0-9]{3,6}[A-Z0-9\-]*)\b` anchored at the start of `l`
(whose previous character is `prev`), enumerating the quantifier choices in
the engine's preference order: letters 4..2, dash present before absent,
digits 6..3, star maximal down to empty, first combination whose closing
`\b` holds. -/
def modelFallbackAt (prev : Option Char) (l : PyStr) : Option PyStr :=
  if !boundaryOK prev l.head? then none
  else
    [4, 3, 2].findSome? fun a =>
      let pre := l.take a
      if pre.length = a && pre.all isUpperAZ then
        [true, false].findSome? fun dash =>
          let dn := if dash then 1 else 0
          let l2 := l.drop a
          if dash && l2.head? != some '-' then none
          else
            let l3 := l2.drop dn
            [6, 5, 4, 3].findSome? fun e =>
              let ds := l3.take e
              if ds.length = e && ds.all Char.isDigit then
                let l4 := l3.drop e
                let starMax := (l4.takeWhile capModelCls).length
                ((List.range (starMax + 1)).reverse).findSome? fun k =>
                  let m := l.take (a + dn + e + k)
                  if boundaryOK m.getLast? (l.drop (a + dn + e + k)).head? then
                    some m
                  else none
              else none
      else none

/-- re.search of the generic model-code pattern: leftmost position wins. -/
def fallbackSearchModel : Option Char → PyStr → Option PyStr
  | _, [] => none
  | prev, c :: rest =>
    match modelFallbackAt prev (c :: rest) with
    | some m => some m
    | none => fallbackSearchModel (some c) rest

/-- Matcher for `\b([A-Z0-9]{8,20})\b` anchored at the current position:
since every shorter prefix of the class run is followed by a class (word)
character, only the maximal run can close the word boundary, so the
pattern matches here iff the maximal `[A-Z0-9]` run has length 8..20 and
the following character is not a word character. -/
def serialRunAt (l : PyStr) : Option PyStr :=
  let r := l.takeWhile isUpperDigit
  if 8 ≤ r.length && r.length ≤ 20 &&
      !(match (l.drop r.length).head? with | some c => isWordCh c | none => false) then
    some r
  else none

/-- re.search of `\b([A-Z0-9]{8,20})\b`: leftmost boundary position whose
run qualifies. -/
def fallbackSearchSerial : Option Char → PyStr → Option PyStr
  | _, [] => none
  | prev, c :: rest =>
    if (match prev with | none => true | some p => !isWordCh p) then
      match serialRunAt (c :: rest) with
      | some r => some r
      | none => fallbackSearchSerial (some c) rest
    else fallbackSearchSerial (some c) rest

/-- Translation of `parse_appliance_info_from_text`: normalize whitespace,
uppercase, then brand substring scan, model patterns with generic-code
fallback (5..20 chars), serial patterns with bare-run fallback that is
discarded when identical to the model number. -/
def parse_appliance_info_from_text (text : PyStr) : LabelInfo :=
  if text = [] then ⟨none, none, none⟩
  else
    let normalized := joinSpace (pyWords text)
    let tU := pyUpper normalized
    let brand := findBrand applianceBrands tU
    let model1 := findModel modelPatterns tU
    let serial1 := findSerial serialPatterns tU
    let model2 := match model1 with
      | some m => some m
      | none =>
        match fallbackSearchModel none tU with
        | some c => if 5 ≤ c.length && c.length ≤ 20 then some c else none
        | none => none
    let serial2 := match serial1 with
      | some s => some s
      | none =>
        match fallbackSearchSerial none tU with
        | some c => if model2 = some c then none else some c
        | none => none
    ⟨brand, model2, serial2⟩

/-! ## search_manual_online / search_manual_with_openai (utils.py 139-390 and 529-672)

The network boundary is an explicit environment: `get` maps a URL to the
abstract content of the response (`none` models a raised request
exception), `headCT` maps a URL to the Content-Type header of a HEAD
request (`none` models a raised exception), and `openai` is the outcome of
the OpenAI call up to JSON parsing.  HTML scraping and `re.findall` over
the raw body are abstracted by the anchor and match lists carried in the
response, over-approximating everything the code could read there. -/

structure SearchResult where
  url : PyStr
  title : PyStr
  note : Option PyStr
deriving Repr, DecidableEq

structure Anchor where
  href : PyStr
  text : PyStr
deriving Repr, DecidableEq

structure HttpResponse where
  status : Nat
  anchors : List Anchor
  rawP1 : List PyStr
  rawP2 : List PyStr
  vedAnchors : List Anchor
deriving Repr

structure OpenAIJson where
  primary_url : Option PyStr
  alternative_urls : List PyStr
  manufacturer_support_url : Option PyStr
deriving Repr

inductive OpenAIOutcome where
  | noKey
  | exc
  | noJsonMatch
  | okJson (r : OpenAIJson)
  | badJson (urlMatches : List PyStr)
deriving Repr

structure NetEnv where
  get : PyStr → Option HttpResponse
  headCT : PyStr → Option PyStr
  openai : OpenAIOutcome

/-- Python exceptions that can arise in the modelled code. -/
inductive PyExc where
  | typeError
  | attributeError
deriving Repr, DecidableEq

/-- Python f-string interpolation of a possibly-`None` value. -/
def fstr (o : Option PyStr) : PyStr := o.getD "None".data

/-- Python truthiness of an optional string. -/
def truthyS (o : Option PyStr) : Bool := match o with | some s => s != [] | none => false

def defaultTitle (brand model_number : Option PyStr) : PyStr :=
  fstr brand ++ [' '] ++ fstr model_number ++ " Manual".data

/-- Anchor title: `link.get_text().strip() or default`. -/
def anchorTitle (a : Anchor) (dflt : PyStr) : PyStr :=
  if pyStrip a.text = [] then dflt else pyStrip a.text

/-- HEAD verification used by the OpenAI branches and the Google anchor
branch: content-type contains `pdf`, or the URL ends in `.pdf`; on a HEAD
exception, accept when the URL ends in `.pdf`. -/
def verifyPdfStd (env : NetEnv) (url : PyStr) : Bool :=
  match env.headCT url with
  | some ct => pyIn "pdf".data (pyLower ct) || ".pdf".data.isSuffixOf (pyLower url)
  | none => ".pdf".data.isSuffixOf (pyLower url)

/-- HEAD verification of the raw-regex branch: only the content-type counts
on success; the `.pdf` suffix only rescues a failed HEAD. -/
def verifyPdfRaw (env : NetEnv) (url : PyStr) : Bool :=
  match env.headCT url with
  | some ct => pyIn "pdf".data (pyLower ct)
  | none => ".pdf".data.isSuffixOf (pyLower url)

/-- HEAD verification of the data-ved branch: the URL must end in `.pdf`,
and a successful HEAD must also report a PDF content-type. -/
def verifyPdfVed (env : NetEnv) (url : PyStr) : Bool :=
  ".pdf".data.isSuffixOf (pyLower url) &&
    (match env.headCT url with
     | some ct => pyIn "pdf".data (pyLower ct)
     | none => true)

def supportNote (model_number : Option PyStr) : PyStr :=
  "This is the manufacturer support page. Please search for model ".data ++
    fstr model_number ++ " on that page to find the manual PDF.".data

/-- The `alternative_urls` loop of `search_manual_with_openai`. -/
def openaiAltsGo (env : NetEnv) (ttl : PyStr) : List PyStr → Option SearchResult
  | [] => none
  | u :: rest =>
    if is_valid_pdf_url u && verifyPdfStd env u then some ⟨u, ttl, none⟩
    else openaiAltsGo env ttl rest

/-- The JSONDecodeError fallback of `search_manual_with_openai`: first
regex-extracted URL passing validation. -/
def openaiBadJsonGo (ttl : PyStr) : List PyStr → Option SearchResult
  | [] => none
  | u :: rest => if is_valid_pdf_url u then some ⟨u, ttl, none⟩ else openaiBadJsonGo ttl rest

/-- Translation of `search_manual_with_openai`: primary URL, then
alternatives, then the manufacturer support page returned with a `note`;
all exceptions and parse failures yield `none`. -/
def search_manual_with_openai (env : NetEnv)
    (brand model_number appliance_name : Option PyStr) : Option SearchResult :=
  let ttl := defaultTitle brand model_number
  match env.openai with
  | .noKey => none
  | .exc => none
  | .noJsonMatch => none
  | .badJson urls => openaiBadJsonGo ttl urls
  | .okJson r =>
    let primaryHit : Option SearchResult :=
      match r.primary_url with
      | some u =>
        if u != [] && is_valid_pdf_url u && verifyPdfStd env u then some ⟨u, ttl, none⟩
        else none
      | none => none
    match primaryHit with
    | some res => some res
    | none =>
      match openaiAltsGo env ttl r.alternative_urls with
      | some res => some res
      | none =>
        match r.manufacturer_support_url with
        | some su =>
          if su != [] then
            let parsed := pyUrlparse su
            if (parsed.scheme = "http".data || parsed.scheme = "https".data) &&
                parsed.netloc != [] then
              some ⟨su, defaultTitle brand model_number ++ " (Support Page)".data,
                some (supportNote model_number)⟩
            else none
          else none
        | none => none

def manufacturerBase : PyStr := "https://www.subzero-wolf.com".data

def manualPaths : List PyStr :=
  [manufacturerBase ++ "/support/manuals".data,
   manufacturerBase ++ "/manuals".data,
   manufacturerBase ++ "/support".data]

/-- One anchor of the manufacturer-site strategy.  When the href contains
`.pdf` the code evaluates `model_number.lower()`, which raises
AttributeError if `model_number` is `None`; the raise aborts the whole
path (it is caught by the per-path bare `except`). -/
def strat1Anchor (model_number : Option PyStr) (dflt : PyStr) (a : Anchor) :
    Except PyExc (Option SearchResult) :=
  let h0 := a.href
  if "/".data.isPrefixOf h0 || "http".data.isPrefixOf h0 then
    let href := if "/".data.isPrefixOf h0 then manufacturerBase ++ h0 else h0
    if pyIn ".pdf".data (pyLower href) then
      match model_number with
      | none => .error .attributeError
      | some m =>
        if (pyIn (pyLower m) (pyLower href) || pyIn (pyLower m) (pyLower a.text)) &&
            is_valid_pdf_url href then
          .ok (some ⟨href, anchorTitle a dflt, none⟩)
        else .ok none
    else .ok none
  else .ok none

def anchorsLoopExc (f : Anchor → Except PyExc (Option SearchResult)) :
    List Anchor → Except PyExc (Option SearchResult)
  | [] => .ok none
  | a :: rest =>
    match f a with
    | .error e => .error e
    | .ok (some r) => .ok (some r)
    | .ok none => anchorsLoopExc f rest

def strat1Path (env : NetEnv) (model_number : Option PyStr) (dflt : PyStr)
    (path : PyStr) : Option SearchResult :=
  match env.get path with
  | none => none
  | some resp =>
    if resp.status = 200 then
      match anchorsLoopExc (strat1Anchor model_number dflt) resp.anchors with
      | .error _ => none
      | .ok o => o
    else none

def firstSomeBy {α β} (f : α → Option β) : List α → Option β
  | [] => none
  | x :: xs => match f x with | some r => some r | none => firstSomeBy f xs

/-- Strategy 1: direct manufacturer-site probing (sub-zero brands only). -/
def strat1 (env : NetEnv) (brand_lower : PyStr) (model_number : Option PyStr)
    (dflt : PyStr) : Option SearchResult :=
  if brand_lower = "sub zero".data || brand_lower = "subzero".data ||
      brand_lower = "sub-zero".data then
    firstSomeBy (strat1Path env model_number dflt) manualPaths
  else none

def libUrls (brand model_number : Option PyStr) : List PyStr :=
  let q := pyQuotePlus (fstr brand ++ [' '] ++ fstr model_number)
  ["https://www.manualslib.com/search.html?q=".data ++ q,
   "https://www.manualsonline.com/search.html?q=".data ++ q]

def strat2Anchor (libUrl : PyStr) (dflt : PyStr) (a : Anchor) : Option SearchResult :=
  let h0 := a.href
  let href :=
    if "/".data.isPrefixOf h0 then
      let parsed := pyUrlparse libUrl
      parsed.scheme ++ "://".data ++ parsed.netloc ++ h0
    else h0
  if pyIn ".pdf".data (pyLower href) && is_valid_pdf_url href then
    some ⟨href, anchorTitle a dflt, none⟩
  else none

def strat2Lib (env : NetEnv) (dflt : PyStr) (libUrl : PyStr) : Option SearchResult :=
  match env.get libUrl with
  | none => none
  | some resp =>
    if resp.status = 200 then firstSomeBy (strat2Anchor libUrl dflt) resp.anchors
    else none

/-- Strategy 2: manual-library site probing. -/
def strat2 (env : NetEnv) (brand model_number : Option PyStr) (dflt : PyStr) :
    Option SearchResult :=
  firstSomeBy (strat2Lib env dflt) (libUrls brand model_number)

def queryParts (brand model_number appliance_name : Option PyStr) : List PyStr :=
  (match brand with | some b => if b != [] then [b] else [] | none => []) ++
  (match model_number with | some m => if m != [] then [m] else [] | none => []) ++
  (match appliance_name with | some n => if n != [] then [n] else [] | none => [])

/-- Construction of the strategy-3 search URL list.  The third entry is
guarded only on the brand containing `sub`; when it is built with
`model_number = None`, `quote_plus(None)` raises TypeError, and this
happens outside every try block of the function. -/
def buildSearchUrls (brand model_number : Option PyStr)
    (search_query brand_lower : PyStr) : Except PyExc (List PyStr) :=
  let u1 := "https://www.google.com/search?q=".data ++ search_query ++ "+filetype:pdf".data
  let u2 := "https://www.google.com/search?q=".data ++ search_query ++
    "&tbm=isch&tbs=ift:pdf".data
  if truthyS brand && pyIn "sub".data brand_lower then
    match brand, model_number with
    | some b, some m =>
      .ok [u1, u2, "https://www.google.com/search?q=".data ++ pyQuotePlus b ++
        "+".data ++ pyQuotePlus m ++ "+manual+site:subzero-wolf.com+filetype:pdf".data]
    | some _, none => .error .typeError
    | none, _ => .ok [u1, u2]
  else .ok [u1, u2]

def sQuoteCh : Char := Char.ofNat 39

/-- Clean-up of a raw regex match: truncate at quote/bracket characters,
strip trailing `.,;`, percent-decode. -/
def cleanRawUrl (m : PyStr) : PyStr :=
  let cut := m.takeWhile fun c =>
    c != '"' && c != sQuoteCh && c != '>' && c != '<' && c != ')'
  unquoteList ((cut.reverse.dropWhile fun c => c = '.' || c = ',' || c = ';').reverse)

/-- One anchor of the Google-search strategy, threading the `found_urls`
set. -/
def strat3AnchorStep (env : NetEnv) (dflt : PyStr) (found : List PyStr) (a : Anchor) :
    List PyStr × Option SearchResult :=
  let href := a.href
  if pyIn "/search?q=".data href || "/search".data.isPrefixOf href then (found, none)
  else
    match extract_pdf_url_from_google_link href with
    | some actual =>
      if found.contains actual then (found, none)
      else if verifyPdfStd env actual then
        (actual :: found, some ⟨actual, anchorTitle a dflt, none⟩)
      else (actual :: found, none)
    | none => (found, none)

/-- One raw-regex match of the Google-search strategy. -/
def strat3RawStep (env : NetEnv) (dflt : PyStr) (found : List PyStr) (m : PyStr) :
    List PyStr × Option SearchResult :=
  let url := cleanRawUrl m
  if is_valid_pdf_url url && !(found.contains url) then
    if verifyPdfRaw env url then (url :: found, some ⟨url, dflt, none⟩)
    else (url :: found, none)
  else (found, none)

/-- One data-ved anchor of the Google-search strategy. -/
def strat3VedStep (env : NetEnv) (dflt : PyStr) (found : List PyStr) (a : Anchor) :
    List PyStr × Option SearchResult :=
  match extract_pdf_url_from_google_link a.href with
  | some actual =>
    if !(found.contains actual) then
      if verifyPdfVed env actual then
        (actual :: found, some ⟨actual, anchorTitle a dflt, none⟩)
      else (actual :: found, none)
    else (found, none)
  | none => (found, none)

def foldStep {α} (f : List PyStr → α → List PyStr × Option SearchResult) :
    List PyStr → List α → List PyStr × Option SearchResult
  | found, [] => (found, none)
  | found, x :: xs =>
    match f found x with
    | (found2, some r) => (found2, some r)
    | (found2, none) => foldStep f found2 xs

def strat3Url (env : NetEnv) (dflt : PyStr) (u : PyStr) : Option SearchResult :=
  match env.get u with
  | none => none
  | some resp =>
    if resp.status = 200 then
      match foldStep (strat3AnchorStep env dflt) [] resp.anchors with
      | (_, some r) => some r
      | (found1, none) =>
        match foldStep (strat3RawStep env dflt) found1 (resp.rawP1 ++ resp.rawP2) with
        | (_, some r) => some r
        | (found2, none) => (foldStep (strat3VedStep env dflt) found2 resp.vedAnchors).2
    else none

/-- Strategy 3: scraping search-engine result pages. -/
def strat3 (env : NetEnv) (dflt : PyStr) (urls : List PyStr) : Option SearchResult :=
  firstSomeBy (strat3Url env dflt) urls

/-- Translation of `search_manual_online`: precondition short-circuit, then
OpenAI, manufacturer probe, manual-library probe, and search-engine
scraping in order.  The result is `Except` because building the strategy-3
URL list can raise. -/
def search_manual_online (env : NetEnv)
    (brand model_number appliance_name : Option PyStr) (use_openai : Bool) :
    Except PyExc (Option SearchResult) :=
  if !truthyS brand && !truthyS model_number then .ok none
  else
    let dflt := defaultTitle brand model_number
    match (if use_openai then search_manual_with_openai env brand model_number appliance_name
           else none) with
    | some r => .ok (some r)
    | none =>
      let search_query :=
        pyQuotePlus (joinSpace (queryParts brand model_number appliance_name) ++
          " manual pdf".data)
      let brand_lower := match brand with | some b => pyLower b | none => []
      match strat1 env brand_lower model_number dflt with
      | some r => .ok (some r)
      | none =>
        match strat2 env brand model_number dflt with
        | some r => .ok (some r)
        | none =>
          match buildSearchUrls brand model_number search_query brand_lower with
          | .error e => .error e
          | .ok urls => .ok (strat3 env dflt urls)

/-! ## Supporting lemmas about the string primitives -/

theorem pyIn_iff (pat l : PyStr) : pyIn pat l = true ↔ pat <:+: l := by
  induction l with
  | nil => simp [pyIn, List.isPrefixOf_iff_prefix, List.prefix_nil, List.infix_nil]
  | cons c rest ih =>
    simp [pyIn, List.isPrefixOf_iff_prefix, ih, List.infix_cons_iff]

theorem pyIn_intro (pat1 pat2 l : PyStr) (h12 : pat1 <:+: pat2)
    (h : pyIn pat2 l = true) : pyIn pat1 l = true := by
  rw [pyIn_iff] at h ⊢
  exact h12.trans h

theorem pyIn_false_of_missing (pat l : PyStr) (c : Char) (hc : c ∈ pat)
    (h : ∀ x ∈ l, x ≠ c) : pyIn pat l = false := by
  cases hp : pyIn pat l with
  | false => rfl
  | true =>
    obtain ⟨s, t, rfl⟩ := (pyIn_iff pat l).mp hp
    exact absurd rfl (h c (by simp [hc]))

theorem pyIn_map (f : Char → Char) (pat l : PyStr) (h : pyIn pat l = true) :
    pyIn (pat.map f) (l.map f) = true := by
  rw [pyIn_iff] at h ⊢
  obtain ⟨s, t, rfl⟩ := h
  exact ⟨s.map f, t.map f, by simp⟩

theorem takeWhile_append_all (p : Char → Bool) (a b : PyStr)
    (h : ∀ c ∈ a, p c = true) :
    (a ++ b).takeWhile p = a ++ b.takeWhile p := by
  induction a with
  | nil => simp
  | cons c a' ih =>
    have hc : p c = true := h c (by simp)
    have ih2 := ih fun x hx => h x (by simp [hx])
    simp [List.takeWhile_cons, hc, ih2]

theorem takeWhile_eq_self (p : Char → Bool) (a : PyStr) (h : ∀ c ∈ a, p c = true) :
    a.takeWhile p = a := by
  have := takeWhile_append_all p a [] h
  simpa using this

theorem contains_eq_false_of_missing (l : PyStr) (x : Char) (h : ∀ c ∈ l, c ≠ x) :
    l.contains x = false := by
  cases hc : l.contains x with
  | false => rfl
  | true => exact absurd (List.elem_iff.mp hc) (fun hm => h x hm rfl)

theorem contains_eq_true_of_mem (l : PyStr) (x : Char) (h : x ∈ l) :
    l.contains x = true := List.elem_iff.mpr h

theorem charToNatOfNatSmall (n : Nat) (h : n < 55296) : (Char.ofNat n).toNat = n := by
  have hv : n.isValidChar := Or.inl h
  rw [Char.ofNat, dif_pos hv]
  simp [Char.ofNatAux, Char.toNat, UInt32.toNat, UInt32.ofNatCore]

theorem charToLowerCases (c : Char) :
    Char.toLower c = c ∨ ('a' ≤ Char.toLower c ∧ Char.toLower c ≤ 'z') := by
  simp only [Char.toLower]
  by_cases h : c.toNat ≥ 65 ∧ c.toNat ≤ 90
  · rw [if_pos h]
    right
    have h1 : (Char.ofNat (c.toNat + 32)).toNat = c.toNat + 32 :=
      charToNatOfNatSmall _ (by omega)
    constructor
    · show (97 : Nat) ≤ (Char.ofNat (c.toNat + 32)).toNat
      omega
    · show (Char.ofNat (c.toNat + 32)).toNat ≤ (122 : Nat)
      omega
  · rw [if_neg h]
    left
    rfl

theorem toLower_eq_of_not_lowercase (c t : Char) (ht : t.toNat < 97 ∨ 122 < t.toNat)
    (h : Char.toLower c = t) : c = t := by
  rcases charToLowerCases c with h1 | ⟨h2, h3⟩
  · rw [← h1, h]
  · rw [h] at h2 h3
    have h2n : (97 : Nat) ≤ t.toNat := h2
    have h3n : t.toNat ≤ (122 : Nat) := h3
    omega

theorem pyLower_missing (t : Char) (ht : t.toNat < 97 ∨ 122 < t.toNat) (l : PyStr)
    (h : ∀ c ∈ l, c ≠ t) : ∀ c ∈ pyLower l, c ≠ t := by
  intro c hc
  obtain ⟨x, hx, rfl⟩ := List.mem_map.mp hc
  intro heq
  exact h x hx (toLower_eq_of_not_lowercase x t ht heq)

/-! ## Claim C2 (code_bug evidence)

With every network request failing (so strategies 0 to 2 find nothing),
calling the search with a brand containing `sub` and an absent model
number reaches the construction of the strategy-3 search-URL list, where
`quote_plus(model_number)` is evaluated on `None` and raises TypeError
outside all try blocks. -/

/-- C2: `search_manual_online` does not absorb every internal exception:
at brand `Sub Zero` with `model_number = None`, it raises TypeError from
`quote_plus(None)` while building the strategy-3 search URLs, instead of
returning a result or `None`. -/
theorem search_manual_online_raises_typeerror :
    search_manual_online ⟨fun _ => none, fun _ => none, .noKey⟩
      (some "Sub Zero".data) none (some "Refrigerator".data) true =
      .error .typeError := rfl

/-! ## Claim C6 -/

/-- Newline-terminated concatenation of the non-empty page texts: the
concatenation contract the spec states for the primary extractor. -/
def joinPagesNonEmpty (pages : List PyStr) : PyStr :=
  (pages.filter (fun p => p != [])).flatMap (fun p => p ++ ['\n'])

/-- The spec's claimed fallback contract: on a primary exception the output
consists only of fallback-extracted text, empty pages contributing
nothing. -/
def specFallbackOnly (env : PdfEnv) : PyStr := joinPagesNonEmpty env.pypdfPages

/-- C6 counterexample: with the primary extractor failing after one page
and the fallback seeing an empty page and a page `B`, the code returns
`A\n\nB\n` (primary partial text kept, blank line for the empty fallback
page), not the `B\n` the claimed fallback contract demands. -/
theorem extract_text_from_pdf_fallback_cex :
    extract_text_from_pdf ⟨[some "A".data], true, ["".data, "B".data], false⟩ =
      "A\n\nB\n".data ∧
    extract_text_from_pdf ⟨[some "A".data], true, ["".data, "B".data], false⟩ ≠
      specFallbackOnly ⟨[some "A".data], true, ["".data, "B".data], false⟩ := by
  constructor
  · rfl
  · decide

theorem plumber_foldl_eq (pages : List (Option PyStr)) (acc : PyStr) :
    pages.foldl plumberStep acc = acc ++ joinPagesNonEmpty (pages.filterMap id) := by
  induction pages generalizing acc with
  | nil => simp [joinPagesNonEmpty]
  | cons p? rest ih =>
    rw [List.foldl_cons]
    cases p? with
    | none =>
      rw [show plumberStep acc none = acc from rfl, ih]
      simp [joinPagesNonEmpty, List.filterMap_cons]
    | some p =>
      by_cases hp : p = []
      · subst hp
        rw [show plumberStep acc (some []) = acc from rfl, ih]
        simp [joinPagesNonEmpty, List.filterMap_cons]
      · rw [show plumberStep acc (some p) = acc ++ p ++ ['\n'] from by
          simp [plumberStep, hp], ih]
        simp [joinPagesNonEmpty, List.filterMap_cons, hp, List.append_assoc]

theorem pypdf_foldl_eq (pages : List PyStr) (acc : PyStr) :
    pages.foldl pypdfStep acc = acc ++ pages.flatMap (fun p => p ++ ['\n']) := by
  induction pages generalizing acc with
  | nil => simp
  | cons p rest ih =>
    rw [List.foldl_cons, show pypdfStep acc p = acc ++ p ++ ['\n'] from rfl, ih]
    simp [List.append_assoc]

/-- C6 (amended): the extractor's actual contract.  When the primary
extractor finishes, the output is the newline-joined non-empty primary
page texts.  When it raises, the fallback either fails too (empty result)
or appends every fallback page text plus a newline — blank lines for empty
pages included — onto the text the primary extractor had accumulated
before failing. -/
theorem extract_text_from_pdf_contract (env : PdfEnv) :
    extract_text_from_pdf env =
      if !env.plumberFail then joinPagesNonEmpty (env.plumberPages.filterMap id)
      else if env.pypdfFail then []
      else joinPagesNonEmpty (env.plumberPages.filterMap id) ++
        env.pypdfPages.flatMap (fun p => p ++ ['\n']) := by
  simp only [extract_text_from_pdf, plumber_foldl_eq, pypdf_foldl_eq, List.nil_append]

/-! ## Claim C9 -/

/-- C9 counterexample: on `MODEL: ABCD1234 THEN XYZW98765` no serial label
pattern matches, the first bare 8-20 alphanumeric run `ABCD1234` equals the
extracted model number, and a later distinct run `XYZW98765` is present in
the text — yet the returned serial number is `none`, not the later run the
claim promises. -/
theorem parse_serial_first_run_cex :
    findSerial serialPatterns
      (pyUpper (joinSpace (pyWords "MODEL: ABCD1234 THEN XYZW98765".data))) = none ∧
    fallbackSearchSerial none
      (pyUpper (joinSpace (pyWords "MODEL: ABCD1234 THEN XYZW98765".data))) =
      some "ABCD1234".data ∧
    pyIn "XYZW98765".data
      (pyUpper (joinSpace (pyWords "MODEL: ABCD1234 THEN XYZW98765".data))) = true ∧
    parse_appliance_info_from_text "MODEL: ABCD1234 THEN XYZW98765".data =
      ⟨none, some "ABCD1234".data, none⟩ := by
  refine ⟨by decide, by decide, by decide, by decide⟩

/-- C9 (amended): when no serial label pattern matches on the uppercased
normalized text, the returned serial number is the first bare alphanumeric
run of length 8-20 provided it differs from the already-found model
number; when that first run equals the model number, no serial is returned
(the code does not move on to a later distinct run). -/
theorem parse_serial_fallback_run (text : PyStr) (hne : text ≠ [])
    (hs : findSerial serialPatterns (pyUpper (joinSpace (pyWords text))) = none) :
    (parse_appliance_info_from_text text).serial_number =
      (match fallbackSearchSerial none (pyUpper (joinSpace (pyWords text))) with
       | some c =>
         if (parse_appliance_info_from_text text).model_number = some c then none
         else some c
       | none => none) := by
  simp only [parse_appliance_info_from_text, if_neg hne, hs]

theorem parse_serial_fallback_run_witness :
    ("MODEL: ABCD1234 THEN XYZW98765".data : PyStr) ≠ [] ∧
    findSerial serialPatterns
      (pyUpper (joinSpace (pyWords "MODEL: ABCD1234 THEN XYZW98765".data))) = none ∧
    (parse_appliance_info_from_text "MODEL: ABCD1234 THEN XYZW98765".data).serial_number =
      (match fallbackSearchSerial none
          (pyUpper (joinSpace (pyWords "MODEL: ABCD1234 THEN XYZW98765".data))) with
       | some c =>
         if (parse_appliance_info_from_text
              "MODEL: ABCD1234 THEN XYZW98765".data).model_number = some c then none
         else some c
       | none => none) :=
  ⟨by decide, by decide, parse_serial_fallback_run _ (by decide) (by decide)⟩

/-! ## Claim C10 -/

/-- C10 counterexample: `LG GENERAL ELECTRIC WASHER` contains the substring
`GENERAL ELECTRIC`, yet the returned brand is `Lg` (the earlier vocabulary
entry `LG` matches first), not the `Ge` the claim asserts for every such
text. -/
theorem parse_brand_ge_cex :
    pyIn "GENERAL ELECTRIC".data
      (pyUpper (joinSpace (pyWords "LG GENERAL ELECTRIC WASHER".data))) = true ∧
    (parse_appliance_info_from_text "LG GENERAL ELECTRIC WASHER".data).brand =
      some "Lg".data ∧
    some "Lg".data ≠ some "Ge".data := by
  refine ⟨by decide, by decide, by decide⟩

theorem findBrand_cons_pos (b : PyStr) (bs : List PyStr) (t : PyStr)
    (h : pyIn b t = true) : findBrand (b :: bs) t = some (pyTitle b) := by
  simp [findBrand, h]

theorem findBrand_cons_neg (b : PyStr) (bs : List PyStr) (t : PyStr)
    (h : pyIn b t = false) : findBrand (b :: bs) t = findBrand bs t := by
  simp [findBrand, h]

theorem findBrand_map_mem : ∀ (bs : List PyStr) (t b : PyStr),
    findBrand bs t = some b → b ∈ bs.map pyTitle := by
  intro bs
  induction bs with
  | nil => intro t b h; exact absurd h (by simp [findBrand])
  | cons x bs ih =>
    intro t b h
    by_cases hx : pyIn x t = true
    · rw [findBrand_cons_pos _ _ _ hx] at h
      injection h with h2
      simp [h2.symm]
    · rw [findBrand_cons_neg _ _ _ (by simpa using hx)] at h
      simp [ih t b h]

theorem findBrand_ne_general_electric (t : PyStr) :
    findBrand applianceBrands t ≠ some "General Electric".data := by
  intro h
  unfold applianceBrands at h
  by_cases h1 : pyIn "SAMSUNG".data t = true
  · rw [findBrand_cons_pos _ _ _ h1] at h; exact absurd h (by decide)
  rw [findBrand_cons_neg _ _ _ (by simpa using h1)] at h
  by_cases h2 : pyIn "LG".data t = true
  · rw [findBrand_cons_pos _ _ _ h2] at h; exact absurd h (by decide)
  rw [findBrand_cons_neg _ _ _ (by simpa using h2)] at h
  by_cases h3 : pyIn "WHIRLPOOL".data t = true
  · rw [findBrand_cons_pos _ _ _ h3] at h; exact absurd h (by decide)
  rw [findBrand_cons_neg _ _ _ (by simpa using h3)] at h
  by_cases h4 : pyIn "MAYTAG".data t = true
  · rw [findBrand_cons_pos _ _ _ h4] at h; exact absurd h (by decide)
  rw [findBrand_cons_neg _ _ _ (by simpa using h4)] at h
  by_cases h5 : pyIn "KITCHENAID".data t = true
  · rw [findBrand_cons_pos _ _ _ h5] at h; exact absurd h (by decide)
  rw [findBrand_cons_neg _ _ _ (by simpa using h5)] at h
  by_cases h6 : pyIn "BOSCH".data t = true
  · rw [findBrand_cons_pos _ _ _ h6] at h; exact absurd h (by decide)
  rw [findBrand_cons_neg _ _ _ (by simpa using h6)] at h
  by_cases h7 : pyIn "GE".data t = true
  · rw [findBrand_cons_pos _ _ _ h7] at h; exact absurd h (by decide)
  rw [findBrand_cons_neg _ _ _ (by simpa using h7)] at h
  by_cases h8 : pyIn "GENERAL ELECTRIC".data t = true
  · exact h7 (pyIn_intro "GE".data "GENERAL ELECTRIC".data t (by decide) h8)
  rw [findBrand_cons_neg _ _ _ (by simpa using h8)] at h
  exact absurd (findBrand_map_mem _ _ _ h) (by decide)

/-- C10 (amended): the brand `General Electric` can never be returned
(the substring `GE` of `GENERAL ELECTRIC` always matches earlier in the
vocabulary); and on any text containing `GENERAL ELECTRIC` in which none
of the six earlier vocabulary entries occurs, the returned brand is
exactly `Ge`. -/
theorem parse_brand_ge_precedence (text : PyStr) :
    (parse_appliance_info_from_text text).brand ≠ some "General Electric".data ∧
    (pyIn "GENERAL ELECTRIC".data (pyUpper (joinSpace (pyWords text))) = true →
      (∀ b ∈ ["SAMSUNG".data, "LG".data, "WHIRLPOOL".data, "MAYTAG".data,
        "KITCHENAID".data, "BOSCH".data],
        pyIn b (pyUpper (joinSpace (pyWords text))) = false) →
      (parse_appliance_info_from_text text).brand = some "Ge".data) := by
  constructor
  · by_cases htext : text = []
    · subst htext
      intro h
      exact absurd h (by decide)
    · simp only [parse_appliance_info_from_text, if_neg htext]
      exact findBrand_ne_general_electric _
  · intro hGEN hearlier
    by_cases htext : text = []
    · subst htext
      exact absurd hGEN (by decide)
    · simp only [parse_appliance_info_from_text, if_neg htext]
      have h1 := hearlier "SAMSUNG".data (by simp)
      have h2 := hearlier "LG".data (by simp)
      have h3 := hearlier "WHIRLPOOL".data (by simp)
      have h4 := hearlier "MAYTAG".data (by simp)
      have h5 := hearlier "KITCHENAID".data (by simp)
      have h6 := hearlier "BOSCH".data (by simp)
      have hGE : pyIn "GE".data (pyUpper (joinSpace (pyWords text))) = true :=
        pyIn_intro _ _ _ (by decide) hGEN
      show findBrand applianceBrands (pyUpper (joinSpace (pyWords text))) = some "Ge".data
      unfold applianceBrands
      rw [findBrand_cons_neg _ _ _ h1, findBrand_cons_neg _ _ _ h2,
        findBrand_cons_neg _ _ _ h3, findBrand_cons_neg _ _ _ h4,
        findBrand_cons_neg _ _ _ h5, findBrand_cons_neg _ _ _ h6,
        findBrand_cons_pos _ _ _ hGE]
      decide

theorem parse_brand_ge_precedence_witness :
    pyIn "GENERAL ELECTRIC".data
      (pyUpper (joinSpace (pyWords "GENERAL ELECTRIC WASHER".data))) = true ∧
    (parse_appliance_info_from_text "GENERAL ELECTRIC WASHER".data).brand =
      some "Ge".data :=
  ⟨by decide, (parse_brand_ge_precedence _).2 (by decide) (by decide)⟩

/-! ## Claim C7 -/

theorem dedupTasks_sublist (seen : List (PyStr × PyStr)) (l : List MaintenanceTask) :
    List.Sublist (dedupTasks seen l) l := by
  induction l generalizing seen with
  | nil => simp [dedupTasks]
  | cons t rest ih =>
    simp only [dedupTasks]
    split
    · exact (ih seen).cons t
    · exact (ih _).cons₂ t

theorem dedupTasks_mem (seen : List (PyStr × PyStr)) (l : List MaintenanceTask)
    (t : MaintenanceTask) (h : t ∈ dedupTasks seen l) :
    taskKey t ∉ seen ∧ l.find? (fun u => taskKey u == taskKey t) = some t := by
  induction l generalizing seen with
  | nil => simp [dedupTasks] at h
  | cons x rest ih =>
    simp only [dedupTasks] at h
    split at h
    · rename_i hmem
      obtain ⟨hns, hfind⟩ := ih _ h
      have hne : taskKey x ≠ taskKey t := fun he => hns (he ▸ hmem)
      refine ⟨hns, ?_⟩
      rw [List.find?_cons]
      have : (taskKey x == taskKey t) = false := by simpa using hne
      rw [this]
      exact hfind
    · rename_i hmem
      rcases List.mem_cons.mp h with rfl | h2
      · refine ⟨hmem, ?_⟩
        rw [List.find?_cons]
        have : (taskKey t == taskKey t) = true := by simp
        rw [this]
      · obtain ⟨hns, hfind⟩ := ih _ h2
        have hx : taskKey t ≠ taskKey x := fun he => hns (by simp [he])
        refine ⟨fun hmem2 => hns (by simp [hmem2]), ?_⟩
        rw [List.find?_cons]
        have : (taskKey x == taskKey t) = false := by
          simpa using fun he => hx he.symm
        rw [this]
        exact hfind

theorem dedupTasks_pairwise (seen : List (PyStr × PyStr)) (l : List MaintenanceTask) :
    (dedupTasks seen l).Pairwise (fun a b => taskKey a ≠ taskKey b) := by
  induction l generalizing seen with
  | nil => simp [dedupTasks]
  | cons x rest ih =>
    simp only [dedupTasks]
    split
    · exact ih seen
    · refine List.Pairwise.cons ?_ (ih _)
      intro b hb he
      exact (dedupTasks_mem _ _ _ hb).1 (by simp [← he])

/-- C7: for every input the miner returns at most 10 candidates, an
order-preserving selection (sublist) of the raw matching sentences that is
deduplicated on the key (lowercased task name, frequency): keys are
pairwise distinct and every returned candidate is the first raw candidate
carrying its key; three identical sentences `Clean the filter monthly.`
yield exactly one candidate and empty input yields the empty list. -/
theorem extract_maintenance_cap_dedup :
    (∀ text : PyStr,
      (extract_maintenance_info text).length ≤ 10 ∧
      List.Sublist (extract_maintenance_info text) (rawTasks text) ∧
      List.Pairwise (fun a b => taskKey a ≠ taskKey b) (extract_maintenance_info text) ∧
      ∀ t ∈ extract_maintenance_info text,
        (rawTasks text).find? (fun u => taskKey u == taskKey t) = some t) ∧
    (extract_maintenance_info
      "Clean the filter monthly. Clean the filter monthly. Clean the filter monthly.".data).length
      = 1 ∧
    extract_maintenance_info [] = [] := by
  refine ⟨?_, by decide, by decide⟩
  intro text
  refine ⟨?_, ?_, ?_, ?_⟩
  · unfold extract_maintenance_info
    rw [List.length_take]
    exact min_le_left _ _
  · exact (List.take_sublist _ _).trans (dedupTasks_sublist _ _)
  · exact (dedupTasks_pairwise [] _).sublist (List.take_sublist _ _)
  · intro t ht
    exact (dedupTasks_mem [] _ t (List.mem_of_mem_take ht)).2

theorem extract_maintenance_cap_dedup_witness :
    buildTask "Clean the filter monthly".data ∈ extract_maintenance_info
      "Clean the filter monthly. Clean the filter monthly. Clean the filter monthly.".data ∧
    (rawTasks
      "Clean the filter monthly. Clean the filter monthly. Clean the filter monthly.".data).find?
      (fun u => taskKey u == taskKey (buildTask "Clean the filter monthly".data)) =
      some (buildTask "Clean the filter monthly".data) :=
  ⟨by decide,
   (extract_maintenance_cap_dedup.1 _).2.2.2 _ (by decide)⟩

/-! ## Claim C8 -/

/-- C8 counterexample: the sentence `Clean the air_filter weekly always.`
produces one candidate whose task name contains an underscore, violating
the claimed alphanumeric+space+hyphen character set (`re.sub` keeps the
whole `\w` class, underscores included). -/
theorem extract_maintenance_charset_cex :
    (extract_maintenance_info "Clean the air_filter weekly always.".data).map
      (fun t => t.task_name.all (fun c => c.isAlphanum || c = ' ' || c = '-')) = [false] ∧
    (extract_maintenance_info "Clean the air_filter weekly always.".data).map
      (fun t => t.task_name.contains '_') = [true] := by
  refine ⟨by decide, by decide⟩

/-- The eight canonical frequency values of the data model. -/
def canonicalFreq : List PyStr :=
  ["daily".data, "weekly".data, "monthly".data, "quarterly".data,
   "semi_annual".data, "annual".data, "as_needed".data, "custom".data]

theorem findFreq_mem (ps : List (PyStr × PyStr)) (sl : PyStr)
    (hps : ∀ p ∈ ps, p.2 ∈ canonicalFreq) : findFreq ps sl ∈ canonicalFreq := by
  induction ps with
  | nil => simp only [findFreq]; decide
  | cons p ps ih =>
    simp only [findFreq]
    split
    · exact hps p (by simp)
    · exact ih fun q hq => hps q (by simp [hq])

theorem pyWordsGo_no_space : ∀ (l cur w : PyStr),
    (∀ c ∈ cur, pyIsSpace c = false) → w ∈ pyWordsGo cur l →
    ∀ c ∈ w, pyIsSpace c = false := by
  intro l
  induction l with
  | nil =>
    intro cur w hcur hw
    simp only [pyWordsGo] at hw
    split at hw
    · simp at hw
    · rcases List.mem_singleton.mp hw with rfl
      intro c hc
      exact hcur c (List.mem_reverse.mp hc)
  | cons c rest ih =>
    intro cur w hcur hw
    simp only [pyWordsGo] at hw
    by_cases hc : pyIsSpace c = true
    · rw [if_pos hc] at hw
      split at hw
      · exact ih [] w (by simp) hw
      · rcases List.mem_cons.mp hw with rfl | hw2
        · intro d hd
          exact hcur d (List.mem_reverse.mp hd)
        · exact ih [] w (by simp) hw2
    · rw [if_neg hc] at hw
      refine ih (c :: cur) w ?_ hw
      intro d hd
      rcases List.mem_cons.mp hd with rfl | hd2
      · simpa using hc
      · exact hcur d hd2

theorem pyWords_no_space (s w : PyStr) (hw : w ∈ pyWords s) :
    ∀ c ∈ w, pyIsSpace c = false :=
  pyWordsGo_no_space s [] w (by simp) hw

theorem joinSpace_chars : ∀ (ws : List PyStr) (c : Char), c ∈ joinSpace ws →
    (∃ w ∈ ws, c ∈ w) ∨ c = ' ' := by
  intro ws
  induction ws with
  | nil => intro c hc; simp [joinSpace] at hc
  | cons w ws ih =>
    intro c hc
    cases ws with
    | nil =>
      left
      exact ⟨w, by simp, by simpa [joinSpace] using hc⟩
    | cons w2 ws2 =>
      rw [show joinSpace (w :: w2 :: ws2) = w ++ ' ' :: joinSpace (w2 :: ws2) from rfl]
        at hc
      rcases List.mem_append.mp hc with h | h
      · exact Or.inl ⟨w, by simp, h⟩
      · rcases List.mem_cons.mp h with rfl | h2
        · exact Or.inr rfl
        · rcases ih c h2 with ⟨w3, hw3, hc3⟩ | h3
          · exact Or.inl ⟨w3, by simp [hw3], hc3⟩
          · exact Or.inr h3

theorem taskNameTrunc_len (s : PyStr) : (taskNameTrunc s).length ≤ 50 := by
  unfold taskNameTrunc
  split
  · rename_i hlong
    simp only [List.length_append, List.length_take, List.length_cons, List.length_nil]
    omega
  · rename_i hshort
    omega

theorem taskNameTrunc_mem (s : PyStr) (c : Char) (hc : c ∈ taskNameTrunc s) :
    c ∈ taskNameRaw s ∨ c = '.' := by
  unfold taskNameTrunc at hc
  split at hc
  · rcases List.mem_append.mp hc with h | h
    · exact Or.inl (List.mem_of_mem_take h)
    · right
      simpa using h
  · exact Or.inl hc

/-- Field invariants of a single built candidate. -/
theorem buildTask_fields (s : PyStr) :
    (buildTask s).task_name.length ≤ 50 ∧
    (∀ c ∈ (buildTask s).task_name, c.isAlphanum = true ∨ c = '_' ∨ c = ' ' ∨ c = '-') ∧
    (buildTask s).description.length ≤ 500 ∧
    (buildTask s).frequency ∈ canonicalFreq ∧
    (buildTask s).extracted_from_manual = true := by
  refine ⟨?_, ?_, ?_, ?_, rfl⟩
  · show (if taskNameClean s = [] then "Maintenance Task".data else taskNameClean s).length ≤ 50
    split
    · decide
    · exact le_trans (List.length_filter_le _ _) (taskNameTrunc_len s)
  · show ∀ c ∈ (if taskNameClean s = [] then "Maintenance Task".data else taskNameClean s),
      c.isAlphanum = true ∨ c = '_' ∨ c = ' ' ∨ c = '-'
    intro c hc
    split at hc
    · fin_cases hc <;> decide
    · have hmem := List.mem_filter.mp hc
      have hpred := hmem.2
      simp only [Bool.or_eq_true, isWordCh, decide_eq_true_eq] at hpred
      rcases hpred with ((halnum | hund) | hsp) | hdash
      · exact Or.inl halnum
      · exact Or.inr (Or.inl hund)
      · rcases taskNameTrunc_mem s c hmem.1 with hj | rfl
        · rcases joinSpace_chars _ c hj with ⟨w, hw, hcw⟩ | hspace
          · have := pyWords_no_space s w (List.mem_of_mem_take hw) c hcw
            rw [this] at hsp
            exact absurd hsp (by simp)
          · exact Or.inr (Or.inr (Or.inl hspace))
        · exact absurd hsp (by decide)
      · exact Or.inr (Or.inr (Or.inr hdash))
  · show (s.take 500).length ≤ 500
    rw [List.length_take]
    exact min_le_left _ _
  · exact findFreq_mem _ _ (by decide)

/-- C8 (amended): every candidate returned by the miner has a task name of
at most 50 characters drawn from word characters (alphanumerics or
underscore), spaces and hyphens, a description of at most 500 characters,
a frequency from the canonical enumeration, and `extracted_from_manual`
set.  The original claim's character set must be widened by the
underscore, which `re.sub(r'[^\w\s-]', ...)` keeps. -/
theorem extract_maintenance_task_fields (text : PyStr) (t : MaintenanceTask)
    (ht : t ∈ extract_maintenance_info text) :
    t.task_name.length ≤ 50 ∧
    (∀ c ∈ t.task_name, c.isAlphanum = true ∨ c = '_' ∨ c = ' ' ∨ c = '-') ∧
    t.description.length ≤ 500 ∧
    t.frequency ∈ canonicalFreq ∧
    t.extracted_from_manual = true := by
  have hraw : t ∈ rawTasks text :=
    (dedupTasks_sublist [] _).subset (List.mem_of_mem_take ht)
  obtain ⟨s0, hs0, hst⟩ := List.mem_filterMap.mp hraw
  have hbt : t = buildTask (pyStrip s0) := by
    simp only [sentenceTask] at hst
    split at hst
    · exact absurd hst (by simp)
    · split at hst
      · injection hst with h
        exact h.symm
      · exact absurd hst (by simp)
  rw [hbt]
  exact buildTask_fields _

theorem extract_maintenance_task_fields_witness :
    buildTask "Clean the oven filter weekly.".data ∈
      extract_maintenance_info "Clean the oven filter weekly.".data ∧
    ((buildTask "Clean the oven filter weekly.".data).task_name.length ≤ 50 ∧
      (∀ c ∈ (buildTask "Clean the oven filter weekly.".data).task_name,
        c.isAlphanum = true ∨ c = '_' ∨ c = ' ' ∨ c = '-') ∧
      (buildTask "Clean the oven filter weekly.".data).description.length ≤ 500 ∧
      (buildTask "Clean the oven filter weekly.".data).frequency ∈ canonicalFreq ∧
      (buildTask "Clean the oven filter weekly.".data).extracted_from_manual = true) := by
  refine ⟨by decide, ?_⟩
  exact extract_maintenance_task_fields "Clean the oven filter weekly.".data _ (by decide)

/-! ## Percent-decoding lemmas -/

theorem unquoteGo_nil (f : Nat) : unquoteGo f [] = [] := by cases f <;> rfl

theorem unquoteGo_cons_eq (f : Nat) (c : Char) (rest : PyStr) :
    unquoteGo (f + 1) (c :: rest) =
      if c = '%' then
        (match rest with
         | h1 :: h2 :: rest2 =>
           if isHexDigitCh h1 && isHexDigitCh h2 then
             Char.ofNat (16 * hexVal h1 + hexVal h2) :: unquoteGo f rest2
           else '%' :: unquoteGo f rest
         | _ => '%' :: unquoteGo f rest)
      else c :: unquoteGo f rest := rfl

theorem unquoteGo_fuelEq : ∀ (f1 : Nat) (l : PyStr) (f2 : Nat),
    l.length ≤ f1 → l.length ≤ f2 → unquoteGo f1 l = unquoteGo f2 l := by
  intro f1
  induction f1 with
  | zero =>
    intro l f2 h1 _
    have hl : l = [] := List.eq_nil_of_length_eq_zero (Nat.le_zero.mp h1)
    subst hl
    cases f2 <;> rfl
  | succ f ih =>
    intro l f2 h1 h2
    cases l with
    | nil => cases f2 <;> rfl
    | cons c rest =>
      cases f2 with
      | zero => simp at h2
      | succ g =>
        simp only [List.length_cons] at h1 h2
        rw [unquoteGo_cons_eq, unquoteGo_cons_eq]
        by_cases hc : c = '%'
        · rw [if_pos hc, if_pos hc]
          cases rest with
          | nil => simp [unquoteGo_nil]
          | cons d rest1 =>
            cases rest1 with
            | nil =>
              have := ih [d] g (by simp at h1 ⊢; omega) (by simp at h2 ⊢; omega)
              simp [this]
            | cons e rest2 =>
              by_cases hx : (isHexDigitCh d && isHexDigitCh e) = true
              · have := ih rest2 g (by simp at h1 ⊢; omega) (by simp at h2 ⊢; omega)
                simp [hx, this]
              · have := ih (d :: e :: rest2) g (by simp at h1 ⊢; omega)
                  (by simp at h2 ⊢; omega)
                simp only [hx, Bool.false_eq_true, if_false, this]
        · rw [if_neg hc, if_neg hc,
            ih rest g (by omega) (by omega)]

theorem unquoteGo_eq (f : Nat) (l : PyStr) (h : l.length ≤ f) :
    unquoteGo f l = unquoteList l :=
  unquoteGo_fuelEq f l l.length h (Nat.le_refl _)

theorem unquoteList_nil : unquoteList [] = [] := rfl

theorem unquoteList_cons_ne (c : Char) (t : PyStr) (hc : c ≠ '%') :
    unquoteList (c :: t) = c :: unquoteList t := by
  show unquoteGo (c :: t).length (c :: t) = _
  rw [List.length_cons, unquoteGo_cons_eq, if_neg hc]
  rfl

theorem unquoteList_pct_cons (t : PyStr) (h : isHexDigitCh (t.headD ' ') = false) :
    unquoteList ('%' :: t) = '%' :: unquoteList t := by
  show unquoteGo ('%' :: t).length ('%' :: t) = _
  rw [List.length_cons, unquoteGo_cons_eq, if_pos rfl]
  cases t with
  | nil => rfl
  | cons d rest1 =>
    cases rest1 with
    | nil => rfl
    | cons e rest2 =>
      have hd : isHexDigitCh d = false := by simpa using h
      simp only [hd, Bool.false_and, Bool.false_eq_true, if_false]
      rw [unquoteGo_eq _ _ (by simp [List.length_cons])]

theorem unquoteList_pct_valid (h1 h2 : Char) (r : PyStr)
    (hx : (isHexDigitCh h1 && isHexDigitCh h2) = true) :
    unquoteList ('%' :: h1 :: h2 :: r) =
      Char.ofNat (16 * hexVal h1 + hexVal h2) :: unquoteList r := by
  show unquoteGo ('%' :: h1 :: h2 :: r).length _ = _
  rw [List.length_cons, unquoteGo_cons_eq, if_pos rfl]
  simp only [hx, if_true]
  rw [unquoteGo_eq _ _ (by simp only [List.length_cons]; omega)]

theorem unquoteList_append_nopct (a b : PyStr) (ha : ∀ c ∈ a, c ≠ '%') :
    unquoteList (a ++ b) = a ++ unquoteList b := by
  induction a with
  | nil => simp
  | cons c a2 ih =>
    rw [List.cons_append, unquoteList_cons_ne c _ (ha c (by simp)),
      ih fun x hx => ha x (by simp [hx])]
    rfl

theorem unquoteList_id_nopct (a : PyStr) (ha : ∀ c ∈ a, c ≠ '%') :
    unquoteList a = a := by
  have := unquoteList_append_nopct a [] ha
  simpa [unquoteList_nil] using this

theorem unquoteList_pct_invalid (d e : Char) (r : PyStr)
    (hx : (isHexDigitCh d && isHexDigitCh e) = false) :
    unquoteList ('%' :: d :: e :: r) = '%' :: unquoteList (d :: e :: r) := by
  show unquoteGo ('%' :: d :: e :: r).length _ = _
  rw [List.length_cons, unquoteGo_cons_eq, if_pos rfl]
  simp only [hx, Bool.false_eq_true, if_false]
  rfl

theorem unquote_preserves_infix (pat : PyStr) (hne : pat ≠ [])
    (hpct : ∀ c ∈ pat, c ≠ '%') (hhex : isHexDigitCh (pat.headD ' ') = false) :
    ∀ (n : Nat) (l : PyStr), l.length ≤ n → pat <:+: l → pat <:+: unquoteList l := by
  intro n
  induction n with
  | zero =>
    intro l hlen hinf
    have hl : l = [] := List.eq_nil_of_length_eq_zero (Nat.le_zero.mp hlen)
    subst hl
    simpa [unquoteList_nil] using hinf
  | succ n ih =>
    intro l hlen hinf
    obtain ⟨s, t, rfl⟩ := hinf
    cases s with
    | nil =>
      rw [List.nil_append, unquoteList_append_nopct pat t hpct]
      exact ⟨[], unquoteList t, by simp⟩
    | cons c a2 =>
      have hsub : pat <:+: a2 ++ pat ++ t := ⟨a2, t, rfl⟩
      have hlen2 : (a2 ++ pat ++ t).length ≤ n := by
        simp only [List.append_assoc, List.cons_append, List.length_cons,
          List.length_append] at hlen ⊢
        omega
      by_cases hc : c = '%'
      · subst hc
        cases a2 with
        | nil =>
          obtain ⟨p0, pt, rfl⟩ : ∃ p0 pt, pat = p0 :: pt := by
            cases pat with
            | nil => exact absurd rfl hne
            | cons p0 pt => exact ⟨p0, pt, rfl⟩
          have hp0 : isHexDigitCh p0 = false := by simpa using hhex
          rw [show ('%' :: [] ++ (p0 :: pt) ++ t : PyStr) =
            '%' :: ((p0 :: pt) ++ t) from by simp]
          rw [unquoteList_pct_cons _ (by simpa using hp0),
            unquoteList_append_nopct _ t hpct]
          exact ⟨['%'], unquoteList t, by simp⟩
        | cons a0 a3 =>
          cases a3 with
          | nil =>
            obtain ⟨p0, pt, rfl⟩ : ∃ p0 pt, pat = p0 :: pt := by
              cases pat with
              | nil => exact absurd rfl hne
              | cons p0 pt => exact ⟨p0, pt, rfl⟩
            have hp0 : isHexDigitCh p0 = false := by simpa using hhex
            have hx : (isHexDigitCh a0 && isHexDigitCh p0) = false := by
              simp [hp0]
            rw [show ('%' :: [a0] ++ (p0 :: pt) ++ t : PyStr) =
              '%' :: a0 :: p0 :: (pt ++ t) from by simp]
            rw [unquoteList_pct_invalid a0 p0 _ hx]
            have hrec := ih (a0 :: p0 :: (pt ++ t))
              (by simp only [List.cons_append, List.append_assoc, List.length_cons,
                List.length_append, List.singleton_append] at hlen ⊢; omega)
              ⟨[a0], t, by simp⟩
            exact List.infix_cons hrec
          | cons a1 a4 =>
            rw [show ('%' :: (a0 :: a1 :: a4) ++ pat ++ t : PyStr) =
              '%' :: a0 :: a1 :: (a4 ++ pat ++ t) from by simp]
            by_cases hx : (isHexDigitCh a0 && isHexDigitCh a1) = true
            · rw [unquoteList_pct_valid a0 a1 _ hx]
              have hrec := ih (a4 ++ pat ++ t)
                (by simp only [List.cons_append, List.length_cons, List.length_append,
                  List.append_assoc] at hlen ⊢; omega)
                ⟨a4, t, rfl⟩
              exact List.infix_cons hrec
            · rw [unquoteList_pct_invalid a0 a1 _ (by simpa using hx)]
              have hrec := ih (a0 :: a1 :: (a4 ++ pat ++ t))
                (by simp only [List.cons_append, List.length_cons, List.length_append,
                  List.append_assoc] at hlen ⊢; omega)
                ⟨a0 :: a1 :: a4, t, by simp⟩
              exact List.infix_cons hrec
      · rw [show ((c :: a2) ++ pat ++ t : PyStr) = c :: (a2 ++ pat ++ t) from by simp]
        rw [unquoteList_cons_ne c _ hc]
        exact List.infix_cons (ih _ hlen2 hsub)

theorem unquote_preserves_pyIn (pat l : PyStr) (hne : pat ≠ [])
    (hpct : ∀ c ∈ pat, c ≠ '%') (hhex : isHexDigitCh (pat.headD ' ') = false)
    (h : pyIn pat l = true) : pyIn pat (unquoteList l) = true := by
  rw [pyIn_iff] at h ⊢
  exact unquote_preserves_infix pat hne hpct hhex l.length l (Nat.le_refl _) h

theorem is_valid_rejects_google (url : PyStr)
    (h : pyIn "google.com/search".data url = true) : is_valid_pdf_url url = false := by
  cases hv : is_valid_pdf_url url with
  | false => rfl
  | true =>
    exfalso
    have hpres : pyIn "google.com/search".data (unquoteList url) = true :=
      unquote_preserves_pyIn _ url (by decide) (by decide) (by decide) h
    have hfact : pyIn "google.com/search".data (pyLower (unquoteList url)) = true := by
      have := pyIn_map Char.toLower _ _ hpres
      simpa using this
    simp only [is_valid_pdf_url] at hv
    repeat' split at hv
    all_goals simp_all

theorem is_valid_rejects_urlq (url : PyStr)
    (h : pyIn "/url?q=".data url = true) : is_valid_pdf_url url = false := by
  cases hv : is_valid_pdf_url url with
  | false => rfl
  | true =>
    exfalso
    have hfact : pyIn "/url?q=".data (unquoteList url) = true :=
      unquote_preserves_pyIn _ url (by decide) (by decide) (by decide) h
    simp only [is_valid_pdf_url] at hv
    repeat' split at hv
    all_goals simp_all

/-! ## Claim C3 -/

/-- C3: any URL containing the search-engine marker `google.com/search` or
the redirect marker `/url?q=` is rejected by the validator, regardless of
any `.pdf`-looking content: percent-decoding preserves both markers (their
first characters are not hex digits, so no escape can swallow them), and
the structural reject rules fire before the PDF-indicator check. -/
theorem is_valid_pdf_url_rejects_markers (url : PyStr)
    (h : pyIn "google.com/search".data url = true ∨ pyIn "/url?q=".data url = true) :
    is_valid_pdf_url url = false := by
  rcases h with h | h
  · exact is_valid_rejects_google url h
  · exact is_valid_rejects_urlq url h

theorem is_valid_pdf_url_rejects_markers_witness :
    (pyIn "google.com/search".data
      "https://www.google.com/search?q=manual+pdf".data = true ∨
     pyIn "/url?q=".data "https://www.google.com/search?q=manual+pdf".data = true) ∧
    is_valid_pdf_url "https://www.google.com/search?q=manual+pdf".data = false ∧
    is_valid_pdf_url "/url?q=https%3A//example.com/manual.pdf&sa=U".data = false :=
  ⟨Or.inl (by decide),
   is_valid_pdf_url_rejects_markers _ (Or.inl (by decide)),
   is_valid_pdf_url_rejects_markers _ (Or.inr (by decide))⟩

/-! ### C4: validator acceptance of well-formed PDF URLs -/

/-! ## Claim C4 -/

/-- Unreserved URL characters for hosts, path segments and file names. -/
def urlChar (c : Char) : Bool :=
  c.isAlphanum || c = '.' || c = '-' || c = '_' || c = '~'

def joinSlash : List PyStr → PyStr → PyStr
  | [], last => last
  | s :: ss, last => s ++ '/' :: joinSlash ss last

/-- A URL of the claimed shape `https://host/seg1/.../name.pdf`. -/
def mkPdfUrl (host : PyStr) (segs : List PyStr) (name : PyStr) : PyStr :=
  "https://".data ++ host ++ '/' :: joinSlash segs (name ++ ".pdf".data)

theorem joinSlash_chars : ∀ (segs : List PyStr) (last : PyStr) (c : Char),
    c ∈ joinSlash segs last → (∃ s ∈ segs, c ∈ s) ∨ c = '/' ∨ c ∈ last := by
  intro segs
  induction segs with
  | nil => intro last c hc; exact Or.inr (Or.inr (by simpa [joinSlash] using hc))
  | cons s ss ih =>
    intro last c hc
    rw [show joinSlash (s :: ss) last = s ++ '/' :: joinSlash ss last from rfl] at hc
    rcases List.mem_append.mp hc with h | h
    · exact Or.inl ⟨s, by simp, h⟩
    · rcases List.mem_cons.mp h with rfl | h2
      · exact Or.inr (Or.inl rfl)
      · rcases ih last c h2 with ⟨s2, hs2, hcs2⟩ | h3
        · exact Or.inl ⟨s2, by simp [hs2], hcs2⟩
        · exact Or.inr h3

theorem joinSlash_suffix (segs : List PyStr) (last : PyStr) :
    last <:+ joinSlash segs last := by
  induction segs with
  | nil => exact List.suffix_refl last
  | cons s ss ih =>
    rw [show joinSlash (s :: ss) last = s ++ '/' :: joinSlash ss last from rfl]
    exact ih.trans ((List.suffix_cons '/' _).trans (List.suffix_append s _))

theorem suffix_map (f : Char → Char) (a b : PyStr) (h : a <:+ b) :
    a.map f <:+ b.map f := by
  obtain ⟨t, rfl⟩ := h
  exact ⟨t.map f, by simp⟩

theorem pyIn_mono_container (pat l1 l2 : PyStr) (h12 : l1 <:+: l2)
    (h : pyIn pat l1 = true) : pyIn pat l2 = true := by
  rw [pyIn_iff] at h ⊢
  exact h.trans h12

theorem urlChar_cases (c : Char) (h : urlChar c = true) :
    c.isAlphanum = true ∨ c = '.' ∨ c = '-' ∨ c = '_' ∨ c = '~' := by
  simp only [urlChar, Bool.or_eq_true, decide_eq_true_eq] at h
  tauto

theorem urlChar_ne (c : Char) (h : urlChar c = true) (t : Char)
    (ht : urlChar t = false) : c ≠ t := by
  intro he
  subst he
  rw [h] at ht
  exact absurd ht (by simp)

/-- Character-class fact for the whole constructed URL. -/
theorem mkPdfUrl_chars (host : PyStr) (segs : List PyStr) (name : PyStr)
    (hhost : ∀ c ∈ host, urlChar c = true)
    (hsegs : ∀ s ∈ segs, ∀ c ∈ s, urlChar c = true)
    (hname : ∀ c ∈ name, urlChar c = true) :
    ∀ c ∈ mkPdfUrl host segs name, urlChar c = true ∨ c = '/' ∨ c = ':' := by
  intro c hc
  unfold mkPdfUrl at hc
  rcases List.mem_append.mp hc with h | h
  · rcases List.mem_append.mp h with h2 | h2
    · fin_cases h2 <;> simp [urlChar]
    · exact Or.inl (hhost c h2)
  · rcases List.mem_cons.mp h with rfl | h2
    · exact Or.inr (Or.inl rfl)
    · rcases joinSlash_chars segs _ c h2 with ⟨s, hs, hcs⟩ | hsl | hlast
      · exact Or.inl (hsegs s hs c hcs)
      · exact Or.inr (Or.inl hsl)
      · rcases List.mem_append.mp hlast with h3 | h3
        · exact Or.inl (hname c h3)
        · fin_cases h3 <;> simp [urlChar]

theorem mkPdfUrl_scheme (host : PyStr) (segs : List PyStr) (name : PyStr) :
    pyUrlsplitScheme (mkPdfUrl host segs name) =
      ("https".data,
        '/' :: '/' :: (host ++ '/' :: joinSlash segs (name ++ ".pdf".data))) := rfl

theorem alnum_toNat (c : Char) (h : c.isAlphanum = true) :
    (48 ≤ c.toNat ∧ c.toNat ≤ 57) ∨ (65 ≤ c.toNat ∧ c.toNat ≤ 90) ∨
    (97 ≤ c.toNat ∧ c.toNat ≤ 122) := by
  simp only [Char.isAlphanum, Char.isAlpha, Char.isDigit, Char.isUpper, Char.isLower,
    Bool.or_eq_true, Bool.and_eq_true, decide_eq_true_eq] at h
  rcases h with (⟨h1, h2⟩ | ⟨h1, h2⟩) | ⟨h1, h2⟩
  · exact Or.inr (Or.inl ⟨h1, h2⟩)
  · exact Or.inr (Or.inr ⟨h1, h2⟩)
  · exact Or.inl ⟨h1, h2⟩

/-- An alphanumeric character differs from any character outside the three
alphanumeric code ranges. -/
theorem alnum_ne_symbol (c : Char) (h : c.isAlphanum = true) (t : Char)
    (ht : t.toNat < 48 ∨ (57 < t.toNat ∧ t.toNat < 65) ∨
      (90 < t.toNat ∧ t.toNat < 97) ∨ 122 < t.toNat) : c ≠ t := by
  intro he
  subst he
  rcases alnum_toNat c h with ⟨h1, h2⟩ | ⟨h1, h2⟩ | ⟨h1, h2⟩ <;> omega

theorem urlChar_ne_sym (c : Char) (h : urlChar c = true) (t : Char)
    (ht : t.toNat < 45 ∨ t.toNat = 47 ∨ (57 < t.toNat ∧ t.toNat < 65) ∨
      (90 < t.toNat ∧ t.toNat < 95) ∨ t.toNat = 96 ∨ 126 < t.toNat) : c ≠ t := by
  rcases urlChar_cases c h with h2 | h2 | h2 | h2 | h2
  · refine alnum_ne_symbol c h2 t ?_
    omega
  all_goals
    subst h2
    intro he
    rw [← he] at ht
    revert ht
    decide

theorem mkPdfUrl_joinChars (segs : List PyStr) (name : PyStr)
    (hsegs : ∀ s ∈ segs, ∀ c ∈ s, urlChar c = true)
    (hname : ∀ c ∈ name, urlChar c = true) :
    ∀ c ∈ joinSlash segs (name ++ ".pdf".data), urlChar c = true ∨ c = '/' := by
  intro c hc
  rcases joinSlash_chars segs _ c hc with ⟨s, hs, hcs⟩ | hsl | hlast
  · exact Or.inl (hsegs s hs c hcs)
  · exact Or.inr hsl
  · rcases List.mem_append.mp hlast with h3 | h3
    · exact Or.inl (hname c h3)
    · left
      fin_cases h3 <;> decide

theorem mkPdfUrl_parse (host : PyStr) (segs : List PyStr) (name : PyStr)
    (hhost : ∀ c ∈ host, urlChar c = true)
    (hsegs : ∀ s ∈ segs, ∀ c ∈ s, urlChar c = true)
    (hname : ∀ c ∈ name, urlChar c = true) :
    pyUrlparse (mkPdfUrl host segs name) =
      ⟨"https".data, host, '/' :: joinSlash segs (name ++ ".pdf".data), [], [], []⟩ := by
  have hJchars := mkPdfUrl_joinChars segs name hsegs hname
  have hnl : ∀ c ∈ host, (c != '/' && c != '?' && c != '#') = true := by
    intro c hc
    have h := hhost c hc
    have h1 : c ≠ '/' := urlChar_ne_sym c h '/' (by decide)
    have h2 : c ≠ '?' := urlChar_ne_sym c h '?' (by decide)
    have h3 : c ≠ '#' := urlChar_ne_sym c h '#' (by decide)
    simp [h1, h2, h3]
  have htake : (host ++ '/' :: joinSlash segs (name ++ ".pdf".data)).takeWhile
      (fun c => c != '/' && c != '?' && c != '#') = host := by
    rw [takeWhile_append_all _ _ _ hnl]
    simp [List.takeWhile_cons]
  have hslash : ∀ c ∈ ('/' :: joinSlash segs (name ++ ".pdf".data) : PyStr),
      urlChar c = true ∨ c = '/' := by
    intro c hc
    rcases List.mem_cons.mp hc with rfl | h2
    · exact Or.inr rfl
    · exact hJchars c h2
  have hnohash : ('/' :: joinSlash segs (name ++ ".pdf".data) : PyStr).contains '#'
      = false := by
    refine contains_eq_false_of_missing _ _ ?_
    intro c hc
    rcases hslash c hc with h3 | rfl
    · exact urlChar_ne_sym c h3 '#' (by decide)
    · decide
  have hnoq : ('/' :: joinSlash segs (name ++ ".pdf".data) : PyStr).contains '?'
      = false := by
    refine contains_eq_false_of_missing _ _ ?_
    intro c hc
    rcases hslash c hc with h3 | rfl
    · exact urlChar_ne_sym c h3 '?' (by decide)
    · decide
  have hnosemi : ('/' :: joinSlash segs (name ++ ".pdf".data) : PyStr).contains ';'
      = false := by
    refine contains_eq_false_of_missing _ _ ?_
    intro c hc
    rcases hslash c hc with h3 | rfl
    · exact urlChar_ne_sym c h3 ';' (by decide)
    · decide
  have hpre : ("//".data.isPrefixOf
      ('/' :: '/' :: (host ++ '/' :: joinSlash segs (name ++ ".pdf".data)))) = true := by
    simp [List.isPrefixOf]
  simp only [pyUrlparse, pyUrlsplit, mkPdfUrl_scheme, hpre, if_true, List.drop_succ_cons,
    List.drop_zero, htake, List.drop_left, hnohash, hnoq, Bool.false_eq_true, if_false,
    hnosemi]

/-- C4 (amended, core): a URL of the shape `https://host/segs/name.pdf`
over unreserved characters, whose host contains a dot and which avoids the
search/redirect markers, is accepted by the validator. -/
theorem mkPdfUrl_accepted (host name : PyStr) (segs : List PyStr)
    (hhost : ∀ c ∈ host, urlChar c = true) (hdot : '.' ∈ host)
    (hsegs : ∀ s ∈ segs, ∀ c ∈ s, urlChar c = true)
    (hname : ∀ c ∈ name, urlChar c = true)
    (hg1 : pyIn "google.com/search".data (pyLower (mkPdfUrl host segs name)) = false)
    (hg2 : pyIn "google.com/url".data (pyLower (mkPdfUrl host segs name)) = false)
    (hred : pyIn "redirect".data (pyLower (mkPdfUrl host segs name)) = false) :
    is_valid_pdf_url (mkPdfUrl host segs name) = true := by
  have hchars := mkPdfUrl_chars host segs name hhost hsegs hname
  have hnopct : ∀ c ∈ mkPdfUrl host segs name, c ≠ '%' := by
    intro c hc
    rcases hchars c hc with h | h | h
    · exact urlChar_ne_sym c h '%' (by decide)
    · subst h; decide
    · subst h; decide
  have hnoq : ∀ c ∈ mkPdfUrl host segs name, c ≠ '?' := by
    intro c hc
    rcases hchars c hc with h | h | h
    · exact urlChar_ne_sym c h '?' (by decide)
    · subst h; decide
    · subst h; decide
  have hnoeq : ∀ c ∈ mkPdfUrl host segs name, c ≠ '=' := by
    intro c hc
    rcases hchars c hc with h | h | h
    · exact urlChar_ne_sym c h '=' (by decide)
    · subst h; decide
    · subst h; decide
  have hunq : unquoteList (mkPdfUrl host segs name) = mkPdfUrl host segs name :=
    unquoteList_id_nopct _ hnopct
  have hne : mkPdfUrl host segs name ≠ [] := by
    unfold mkPdfUrl
    simp
  have hparse := mkPdfUrl_parse host segs name hhost hsegs hname
  have hpref : ("https://".data.isPrefixOf (mkPdfUrl host segs name)) = true :=
    List.isPrefixOf_iff_prefix.mpr ⟨host ++ '/' :: joinSlash segs (name ++ ".pdf".data),
      by simp [mkPdfUrl]⟩
  have hm1 : pyIn "/url?q=".data (mkPdfUrl host segs name) = false :=
    pyIn_false_of_missing _ _ '?' (by decide) hnoq
  have hm2 : pyIn "/url?url=".data (mkPdfUrl host segs name) = false :=
    pyIn_false_of_missing _ _ '?' (by decide) hnoq
  have hlq : ∀ c ∈ pyLower (mkPdfUrl host segs name), c ≠ '?' :=
    pyLower_missing '?' (Or.inl (by decide)) _ hnoq
  have hleq : ∀ c ∈ pyLower (mkPdfUrl host segs name), c ≠ '=' :=
    pyLower_missing '=' (Or.inl (by decide)) _ hnoeq
  have hs1 : pyIn "search?q=".data (pyLower (mkPdfUrl host segs name)) = false :=
    pyIn_false_of_missing _ _ '?' (by decide) hlq
  have hs2 : pyIn "sca_esv=".data (pyLower (mkPdfUrl host segs name)) = false :=
    pyIn_false_of_missing _ _ '=' (by decide) hleq
  have hs3 : pyIn "source=lnms".data (pyLower (mkPdfUrl host segs name)) = false :=
    pyIn_false_of_missing _ _ '=' (by decide) hleq
  have hpathsuf : ('/' :: joinSlash segs (name ++ ".pdf".data)) <:+
      mkPdfUrl host segs name :=
    ⟨"https://".data ++ host, by simp [mkPdfUrl]⟩
  have hredpath : pyIn "redirect".data
      (pyLower ('/' :: joinSlash segs (name ++ ".pdf".data))) = false := by
    cases hrp : pyIn "redirect".data
        (pyLower ('/' :: joinSlash segs (name ++ ".pdf".data))) with
    | false => rfl
    | true =>
      have hmono := pyIn_mono_container "redirect".data _ _
        (suffix_map Char.toLower _ _ hpathsuf).isInfix hrp
      rw [show ((mkPdfUrl host segs name).map Char.toLower : PyStr) =
        pyLower (mkPdfUrl host segs name) from rfl] at hmono
      rw [hred] at hmono
      exact absurd hmono (by simp)
  have hsuf : (".pdf".data.isSuffixOf
      (pyLower ('/' :: joinSlash segs (name ++ ".pdf".data)))) = true := by
    rw [List.isSuffixOf_iff_suffix]
    have h3 : ".pdf".data <:+ '/' :: joinSlash segs (name ++ ".pdf".data) :=
      ((List.suffix_append name _).trans (joinSlash_suffix segs _)).trans
        (List.suffix_cons '/' _)
    have h4 := suffix_map Char.toLower _ _ h3
    rw [show (".pdf".data.map Char.toLower : PyStr) = ".pdf".data from by decide] at h4
    exact h4
  have hnetne : host ≠ [] := List.ne_nil_of_mem hdot
  have hnetdot : host.contains '.' = true := contains_eq_true_of_mem _ _ hdot
  simp only [is_valid_pdf_url, hunq, hparse, if_neg hne]
  simp [hpref, hnetne, hnetdot, hdot, hg1, hg2, hm1, hm2, hredpath, hsuf, hs1, hs2, hs3]

/-- C4 counterexample: the URL https://example.com/redirect/manual.pdf has
exactly the claimed shape (dotted host, path segments, trailing .pdf, no
query string) yet the validator rejects it, because its path contains the
substring "redirect". -/
theorem is_valid_pdf_url_rejects_wellformed_cex :
    mkPdfUrl "example.com".data ["redirect".data] "manual".data =
      "https://example.com/redirect/manual.pdf".data ∧
    is_valid_pdf_url "https://example.com/redirect/manual.pdf".data = false := by
  decide

theorem mkPdfUrl_accepted_witness :
    (∀ c ∈ "example.com".data, urlChar c = true) ∧
    '.' ∈ "example.com".data ∧
    (∀ s ∈ ["docs".data], ∀ c ∈ s, urlChar c = true) ∧
    (∀ c ∈ "manual".data, urlChar c = true) ∧
    pyIn "google.com/search".data
      (pyLower (mkPdfUrl "example.com".data ["docs".data] "manual".data)) = false ∧
    pyIn "google.com/url".data
      (pyLower (mkPdfUrl "example.com".data ["docs".data] "manual".data)) = false ∧
    pyIn "redirect".data
      (pyLower (mkPdfUrl "example.com".data ["docs".data] "manual".data)) = false ∧
    is_valid_pdf_url (mkPdfUrl "example.com".data ["docs".data] "manual".data) = true :=
  ⟨by decide, by decide, by decide, by decide, by decide, by decide, by decide,
   mkPdfUrl_accepted "example.com".data "manual".data ["docs".data]
     (by decide) (by decide) (by decide) (by decide) (by decide) (by decide) (by decide)⟩

/-! ### C5: redirect-resolution round trip -/

theorem toHexDigit_safe (n : Nat) (h : n < 16) : pyAlwaysSafe (toHexDigit n) = true := by
  interval_cases n <;> decide

theorem toHexDigit_hex (n : Nat) (h : n < 16) : isHexDigitCh (toHexDigit n) = true := by
  interval_cases n <;> decide

theorem hexVal_toHexDigit (n : Nat) (h : n < 16) : hexVal (toHexDigit n) = n := by
  interval_cases n <;> decide

/-- Characters appearing in a percent-encoded byte string: the unreserved
characters, the safe `/`, or the `%` of an escape. -/
theorem pyQuote_chars (l : PyStr) (hb : ∀ c ∈ l, c.toNat < 256) :
    ∀ c ∈ pyQuote l, pyAlwaysSafe c = true ∨ c = '/' ∨ c = '%' := by
  intro c hc
  rw [pyQuote, List.mem_flatMap] at hc
  obtain ⟨a, ha, hca⟩ := hc
  by_cases hs : (pyAlwaysSafe a || a = '/') = true
  · rw [if_pos hs] at hca
    simp only [List.mem_singleton] at hca
    subst hca
    rcases Bool.or_eq_true_iff.mp hs with h | h
    · exact Or.inl h
    · exact Or.inr (Or.inl (by simpa using h))
  · rw [if_neg hs] at hca
    have hb256 := hb a ha
    simp only [pctEncode, List.mem_cons, List.not_mem_nil, or_false] at hca
    rcases hca with h | h | h
    · exact Or.inr (Or.inr h)
    · exact Or.inl (h ▸ toHexDigit_safe _ (Nat.div_lt_of_lt_mul (by omega)))
    · exact Or.inl (h ▸ toHexDigit_safe _ (Nat.mod_lt _ (by omega)))

theorem pyQuote_not_mem (l : PyStr) (hb : ∀ c ∈ l, c.toNat < 256) (t : Char)
    (h1 : pyAlwaysSafe t = false) (h2 : t ≠ '/') (h3 : t ≠ '%') : t ∉ pyQuote l := by
  intro ht
  rcases pyQuote_chars l hb t ht with h | h | h
  · rw [h1] at h; exact absurd h (by simp)
  · exact h2 h
  · exact h3 h

/-- Percent-decoding inverts percent-encoding on byte strings. -/
theorem unquote_pyQuote (l : PyStr) (hb : ∀ c ∈ l, c.toNat < 256) :
    unquoteList (pyQuote l) = l := by
  induction l with
  | nil => rfl
  | cons c l' ih =>
    have hb' : ∀ x ∈ l', x.toNat < 256 := fun x hx => hb x (List.mem_cons_of_mem _ hx)
    have hc256 : c.toNat < 256 := hb c (List.mem_cons_self _ _)
    rw [pyQuote, List.flatMap_cons]
    by_cases hs : (pyAlwaysSafe c || c = '/') = true
    · rw [if_pos hs]
      have hcne : c ≠ '%' := by
        intro h
        subst h
        exact absurd hs (by decide)
      rw [List.singleton_append, unquoteList_cons_ne c _ hcne]
      exact congrArg (c :: ·) (ih hb')
    · rw [if_neg hs]
      have hdiv : c.toNat / 16 < 16 := Nat.div_lt_of_lt_mul (by omega)
      have hmod : c.toNat % 16 < 16 := Nat.mod_lt _ (by omega)
      rw [pctEncode, List.cons_append, List.cons_append, List.cons_append,
        List.nil_append,
        unquoteList_pct_valid _ _ _ (by rw [toHexDigit_hex _ hdiv, toHexDigit_hex _ hmod]; rfl),
        hexVal_toHexDigit _ hdiv, hexVal_toHexDigit _ hmod,
        Nat.div_add_mod, Char.ofNat_toNat]
      exact congrArg (c :: ·) (ih hb')

/-- Splitting a string that starts with the (non-empty) separator emits the
accumulated piece and restarts after the separator. -/
theorem pySplitGo_sep_prefix (sep : PyStr) (hs : sep ≠ []) (acc x : PyStr) :
    pySplitGo sep acc (sep ++ x) = acc.reverse :: pySplitGo sep [] x := by
  cases sep with
  | nil => exact absurd rfl hs
  | cons s ss =>
    rw [show ((s :: ss) ++ x : PyStr) = s :: (ss ++ x) from rfl, pySplitGo]
    have hpre : (s :: ss : PyStr).isPrefixOf (s :: (ss ++ x)) = true :=
      List.isPrefixOf_iff_prefix.mpr ⟨x, rfl⟩
    have hc : ((s :: ss : PyStr) != [] &&
        (s :: ss : PyStr).isPrefixOf (s :: (ss ++ x))) = true := by
      rw [hpre]
      rfl
    rw [if_pos hc]
    rw [show (s :: (ss ++ x) : PyStr) = (s :: ss) ++ x from rfl, List.drop_left]

/-- The first piece produced by the splitter extends the accumulator. -/
theorem pySplitGo_head (sep : PyStr) :
    ∀ (y acc : PyStr), ∃ h t, pySplitGo sep acc y = (acc.reverse ++ h) :: t := by
  intro y
  induction y with
  | nil => exact fun acc => ⟨[], [], by rw [pySplitGo, List.append_nil]⟩
  | cons c rest ih =>
    intro acc
    rw [pySplitGo]
    by_cases hc : (sep != [] && sep.isPrefixOf (c :: rest)) = true
    · exact ⟨[], pySplitGo sep [] ((c :: rest).drop sep.length),
        by rw [if_pos hc, List.append_nil]⟩
    · obtain ⟨h, t, ht⟩ := ih (c :: acc)
      refine ⟨c :: h, t, ?_⟩
      rw [if_neg hc, ht]
      simp

/-- If some character of the separator never occurs in `a` and the
separator misses the boundary character `d`, the splitter scans straight
through `a ++ [d]`, accumulating it. -/
theorem pySplitGo_through (sep : PyStr) (w d : Char) (hw : w ∈ sep) (hd : d ∉ sep)
    (a : PyStr) (hwa : w ∉ a) (b : PyStr) :
    ∀ acc, pySplitGo sep acc (a ++ d :: b) = pySplitGo sep (d :: a.reverse ++ acc) b := by
  induction a with
  | nil =>
    intro acc
    have hc : (sep != [] && sep.isPrefixOf (d :: b)) = false := by
      cases hp : sep.isPrefixOf (d :: b) with
      | false => simp
      | true =>
        exfalso
        obtain ⟨t, ht⟩ := List.isPrefixOf_iff_prefix.mp hp
        cases sep with
        | nil => exact absurd hw (List.not_mem_nil w)
        | cons s ss =>
          have hsd : s = d := (List.cons.injEq _ _ _ _).mp ht |>.1
          exact hd (hsd ▸ List.mem_cons_self s ss)
    rw [List.nil_append, pySplitGo, hc]
    simp
  | cons c a' ih =>
    intro acc
    have hwa' : w ∉ a' := fun hx => hwa (List.mem_cons_of_mem _ hx)
    have hc : (sep != [] && sep.isPrefixOf (c :: (a' ++ d :: b))) = false := by
      cases hp : sep.isPrefixOf (c :: (a' ++ d :: b)) with
      | false => simp
      | true =>
        exfalso
        have hpre : sep <+: ((c :: a') ++ d :: b) := List.isPrefixOf_iff_prefix.mp hp
        have htake := List.prefix_iff_eq_take.mp hpre
        rw [List.take_append_eq_append_take] at htake
        by_cases hlen : sep.length ≤ (c :: a').length
        · rw [Nat.sub_eq_zero_of_le hlen, List.take_zero, List.append_nil] at htake
          have : w ∈ (c :: a').take sep.length := htake ▸ hw
          exact hwa (List.mem_of_mem_take this)
        · have hlen' : 1 ≤ sep.length - (c :: a').length := by omega
          rw [List.take_of_length_le (by omega)] at htake
          have : d ∈ sep := by
            rw [htake]
            refine List.mem_append_right _ ?_
            cases he : sep.length - (c :: a').length with
            | zero => omega
            | succ k => simp
          exact hd this
    rw [List.cons_append, pySplitGo, hc]
    simp only [Bool.false_eq_true, if_false]
    rw [ih hwa' (c :: acc)]
    have hacc : (d :: a'.reverse ++ (c :: acc) : PyStr) =
        d :: (c :: a').reverse ++ acc := by simp
    rw [hacc]

/-- Splitting on a single character scans through a block that misses it. -/
theorem pySplitGo_single_skip (c0 : Char) (a : PyStr) (h : c0 ∉ a) :
    ∀ (acc y : PyStr), pySplitGo [c0] acc (a ++ y) = pySplitGo [c0] (a.reverse ++ acc) y := by
  induction a with
  | nil => intro acc y; simp
  | cons c a' ih =>
    intro acc y
    have hne : c0 ≠ c := fun he => h (he ▸ List.mem_cons_self c a')
    have h' : c0 ∉ a' := fun hx => h (List.mem_cons_of_mem _ hx)
    rw [List.cons_append, pySplitGo,
      if_neg (by simp [List.isPrefixOf, hne]), ih h' (c :: acc) y]
    have hacc : (a'.reverse ++ (c :: acc) : PyStr) = (c :: a').reverse ++ acc := by simp
    rw [hacc]

/-- The `/url?q=` branch of the link extractor recovers the encoded URL. -/
theorem extractLink_redirect_pos (U tail : PyStr)
    (hv : is_valid_pdf_url U = true) (hb : ∀ c ∈ U, c.toNat < 256) :
    extract_pdf_url_from_google_link
      ("/url?q=".data ++ pyQuote U ++ '&' :: tail) = some U := by
  have hqq : '?' ∉ pyQuote U := pyQuote_not_mem U hb '?' (by decide) (by decide) (by decide)
  have hamp : '&' ∉ pyQuote U := pyQuote_not_mem U hb '&' (by decide) (by decide) (by decide)
  have hne : ("/url?q=".data ++ pyQuote U ++ '&' :: tail : PyStr) ≠ [] := by simp
  have hpre : ("/url?q=".data.isPrefixOf
      ("/url?q=".data ++ pyQuote U ++ '&' :: tail)) = true :=
    List.isPrefixOf_iff_prefix.mpr ⟨pyQuote U ++ '&' :: tail, rfl⟩
  obtain ⟨h, t, hht⟩ :=
    pySplitGo_head "/url?q=".data tail ('&' :: (pyQuote U).reverse ++ [])
  have hget1 : (pySplit "/url?q=".data
      ("/url?q=".data ++ pyQuote U ++ '&' :: tail)).get? 1 =
      some (pyQuote U ++ '&' :: h) := by
    rw [pySplit, List.append_assoc,
      pySplitGo_sep_prefix "/url?q=".data (by decide) []
        (pyQuote U ++ '&' :: tail),
      pySplitGo_through "/url?q=".data '?' '&' (by decide) (by decide)
        (pyQuote U) hqq tail [], hht]
    simp
  have hhd : ((pySplit "&".data (pyQuote U ++ '&' :: h)).headD []) = pyQuote U := by
    rw [show ("&".data : PyStr) = ['&'] from rfl, pySplit,
      pySplitGo_single_skip '&' (pyQuote U) hamp [] ('&' :: h),
      show ('&' :: h : PyStr) = ['&'] ++ h from rfl,
      pySplitGo_sep_prefix ['&'] (by decide) _ h]
    simp
  rw [extract_pdf_url_from_google_link, if_neg hne]
  simp only [hpre, if_true, hget1, hhd, unquote_pyQuote U hb, hv]

theorem infix_iff_exists_drop (pat l : PyStr) : pat <:+: l ↔ ∃ i, pat <+: l.drop i := by
  constructor
  · rintro ⟨a, b, rfl⟩
    refine ⟨a.length, ?_⟩
    have hd : ((a ++ pat ++ b).drop a.length : PyStr) = pat ++ b := by
      rw [List.append_assoc, List.drop_left]
    rw [hd]
    exact List.prefix_append _ _
  · rintro ⟨i, hp⟩
    exact hp.isInfix.trans (List.drop_suffix i l).isInfix

/-- The pattern `url=` never starts at an `=`-free block followed by `&`. -/
theorem notPrefix_urlEq (qr tl' : PyStr) (hq : '=' ∉ qr) :
    ¬ ("url=".data <+: qr ++ '&' :: tl') := by
  intro hp
  obtain ⟨t, ht⟩ := hp
  rcases qr with _ | ⟨a, _ | ⟨b, _ | ⟨c, _ | ⟨d, qr'⟩⟩⟩⟩
  · simp at ht
  · simp at ht
  · simp at ht
  · simp at ht
  · rw [show ("url=".data : PyStr) = 'u' :: 'r' :: 'l' :: '=' :: [] from rfl] at ht
    simp only [List.cons_append, List.nil_append, List.cons.injEq] at ht
    exact hq (by rw [ht.2.2.2.1]; simp)

/-- `url=` does not occur in a crafted redirect link whose payload is
`=`-free. -/
theorem urlEq_fence (q : PyStr) (hq : '=' ∉ q) :
    pyIn "url=".data (("/url?q=".data ++ q) ++ "&sa=U".data) = false := by
  cases hp : pyIn "url=".data (("/url?q=".data ++ q) ++ "&sa=U".data) with
  | false => rfl
  | true =>
    exfalso
    have hinf := (pyIn_iff _ _).mp hp
    rw [show ((("/url?q=".data ++ q) ++ "&sa=U".data : PyStr)) =
      "/url?q=".data ++ (q ++ "&sa=U".data) from by rw [List.append_assoc]] at hinf
    obtain ⟨i, hdrop⟩ := (infix_iff_exists_drop _ _).mp hinf
    rw [List.drop_append_eq_append_drop] at hdrop
    by_cases hi : i ≤ 6
    · interval_cases i <;>
        (obtain ⟨t, ht⟩ := hdrop; revert ht; simp)
    · push_neg at hi
      rw [List.drop_eq_nil_of_le (by simpa using hi), List.nil_append,
        List.drop_append_eq_append_drop,
        show ("/url?q=".data.length : Nat) = 7 from rfl] at hdrop
      by_cases hj : i - 7 ≤ q.length
      · rw [Nat.sub_eq_zero_of_le hj] at hdrop
        have hq' : '=' ∉ q.drop (i - 7) :=
          fun hx => hq ((List.drop_sublist _ _).subset hx)
        rw [show ("&sa=U".data : PyStr) = '&' :: "sa=U".data from rfl] at hdrop
        exact notPrefix_urlEq _ _ hq' hdrop
      · push_neg at hj
        rw [List.drop_eq_nil_of_le (by omega), List.nil_append] at hdrop
        have hd1 : 1 ≤ i - 7 - q.length := by omega
        rcases hk : i - 7 - q.length with _ | _ | _ | _ | _ | k5
        · omega
        · rw [hk] at hdrop; revert hdrop; simp [List.IsPrefix]
        · rw [hk] at hdrop; revert hdrop; simp [List.IsPrefix]
        · rw [hk] at hdrop; revert hdrop; simp [List.IsPrefix]
        · rw [hk] at hdrop; revert hdrop; simp [List.IsPrefix]
        · rw [hk, List.drop_eq_nil_of_le (by simp)] at hdrop
          revert hdrop
          simp

/-- When the encoded URL is itself a Google search URL, the extractor
rejects it and every later branch fails too. -/
theorem extractLink_redirect_neg (U : PyStr)
    (hg : pyIn "google.com/search".data U = true) (hb : ∀ c ∈ U, c.toNat < 256) :
    extract_pdf_url_from_google_link
      ("/url?q=".data ++ pyQuote U ++ "&sa=U".data) = none := by
  show extract_pdf_url_from_google_link
      ("/url?q=".data ++ pyQuote U ++ '&' :: "sa=U".data) = none
  have hvF : is_valid_pdf_url U = false := is_valid_rejects_google U hg
  have hqq : '?' ∉ pyQuote U := pyQuote_not_mem U hb '?' (by decide) (by decide) (by decide)
  have hamp : '&' ∉ pyQuote U := pyQuote_not_mem U hb '&' (by decide) (by decide) (by decide)
  have heqq : '=' ∉ pyQuote U := pyQuote_not_mem U hb '=' (by decide) (by decide) (by decide)
  have hne : ("/url?q=".data ++ pyQuote U ++ '&' :: "sa=U".data : PyStr) ≠ [] := by simp
  have hpre : ("/url?q=".data.isPrefixOf
      ("/url?q=".data ++ pyQuote U ++ '&' :: "sa=U".data)) = true :=
    List.isPrefixOf_iff_prefix.mpr ⟨pyQuote U ++ '&' :: "sa=U".data, rfl⟩
  obtain ⟨h, t, hht⟩ :=
    pySplitGo_head "/url?q=".data "sa=U".data ('&' :: (pyQuote U).reverse ++ [])
  have hget1 : (pySplit "/url?q=".data
      ("/url?q=".data ++ pyQuote U ++ '&' :: "sa=U".data)).get? 1 =
      some (pyQuote U ++ '&' :: h) := by
    rw [pySplit, List.append_assoc,
      pySplitGo_sep_prefix "/url?q=".data (by decide) []
        (pyQuote U ++ '&' :: "sa=U".data),
      pySplitGo_through "/url?q=".data '?' '&' (by decide) (by decide)
        (pyQuote U) hqq "sa=U".data [], hht]
    simp
  have hhd : ((pySplit "&".data (pyQuote U ++ '&' :: h)).headD []) = pyQuote U := by
    rw [show ("&".data : PyStr) = ['&'] from rfl, pySplit,
      pySplitGo_single_skip '&' (pyQuote U) hamp [] ('&' :: h),
      show ('&' :: h : PyStr) = ['&'] ++ h from rfl,
      pySplitGo_sep_prefix ['&'] (by decide) _ h]
    simp
  have hfence : pyIn "url=".data
      ("/url?q=".data ++ pyQuote U ++ '&' :: "sa=U".data) = false :=
    urlEq_fence (pyQuote U) heqq
  have h3a : ("http://".data.isPrefixOf
      ("/url?q=".data ++ pyQuote U ++ '&' :: "sa=U".data)) = false := by
    simp [List.isPrefixOf]
  have h3b : ("https://".data.isPrefixOf
      ("/url?q=".data ++ pyQuote U ++ '&' :: "sa=U".data)) = false := by
    simp [List.isPrefixOf]
  rw [extract_pdf_url_from_google_link, if_neg hne]
  simp only [hpre, if_true, hget1, hhd, unquote_pyQuote U hb, hvF,
    Bool.false_eq_true, if_false, hfence, Bool.and_false, h3a, h3b,
    Bool.or_self, Bool.false_and]

/-- C5: redirect-resolution round trip.  For every byte-string URL `U`
accepted by `is_valid_pdf_url`, the extractor applied to
`"/url?q=" ++ quote(U) ++ "&..."` returns exactly `U`; and when `U` is
itself a Google search URL the same call returns none. -/
theorem extract_pdf_url_roundtrip :
    (∀ U tail : PyStr, is_valid_pdf_url U = true → (∀ c ∈ U, c.toNat < 256) →
      extract_pdf_url_from_google_link
        ("/url?q=".data ++ pyQuote U ++ '&' :: tail) = some U) ∧
    (∀ U : PyStr, pyIn "google.com/search".data U = true →
      (∀ c ∈ U, c.toNat < 256) →
      extract_pdf_url_from_google_link
        ("/url?q=".data ++ pyQuote U ++ "&sa=U".data) = none) :=
  ⟨extractLink_redirect_pos, extractLink_redirect_neg⟩

theorem extract_pdf_url_roundtrip_witness :
    (is_valid_pdf_url "https://example.com/files/manual.pdf".data = true ∧
     (∀ c ∈ "https://example.com/files/manual.pdf".data, c.toNat < 256) ∧
     extract_pdf_url_from_google_link
       ("/url?q=".data ++ pyQuote "https://example.com/files/manual.pdf".data ++
         '&' :: "sa=U".data) = some "https://example.com/files/manual.pdf".data) ∧
    (pyIn "google.com/search".data
       "https://www.google.com/search?q=manual+pdf".data = true ∧
     (∀ c ∈ "https://www.google.com/search?q=manual+pdf".data, c.toNat < 256) ∧
     extract_pdf_url_from_google_link
       ("/url?q=".data ++ pyQuote "https://www.google.com/search?q=manual+pdf".data ++
         "&sa=U".data) = none) :=
  ⟨⟨by decide, by decide,
    extract_pdf_url_roundtrip.1 "https://example.com/files/manual.pdf".data
      "sa=U".data (by decide) (by decide)⟩,
   ⟨by decide, by decide,
    extract_pdf_url_roundtrip.2 "https://www.google.com/search?q=manual+pdf".data
      (by decide) (by decide)⟩⟩


/-! ### C1: the SearchResult invariant -/

/-- Every URL the Google-link extractor returns has passed the validator. -/
theorem extract_some_valid (h u : PyStr)
    (heq : extract_pdf_url_from_google_link h = some u) :
    is_valid_pdf_url u = true := by
  by_cases hh : h = []
  · rw [extract_pdf_url_from_google_link, if_pos hh] at heq
    exact absurd heq (by simp)
  · simp only [extract_pdf_url_from_google_link, if_neg hh] at heq
    split at heq
    next u1 hb1 =>
      replace heq : u1 = u := by injection heq
      subst heq
      split at hb1
      · split at hb1
        next => exact absurd hb1 (by simp)
        next seg hseg =>
          split at hb1
          next hv => injection hb1 with hb1'; rw [← hb1']; exact hv
          next => exact absurd hb1 (by simp)
      · exact absurd hb1 (by simp)
    next hb1 =>
      split at heq
      next u2 hb2 =>
        replace heq : u2 = u := by injection heq
        subst heq
        split at hb2
        · split at hb2
          next p hp2 =>
            split at hb2
            next hv => injection hb2 with hb2'; rw [← hb2']; exact hv
            next => exact absurd hb2 (by simp)
          next => exact absurd hb2 (by simp)
        · exact absurd hb2 (by simp)
      next hb2 =>
        split at heq
        next hc =>
          injection heq with heq'
          rw [← heq']
          simp only [Bool.and_eq_true] at hc
          exact hc.2
        next => exact absurd heq (by simp)

/-- The SearchResult invariant: a validated URL, or a note marking a
support-page fallback. -/
def resultInv (r : SearchResult) : Prop :=
  is_valid_pdf_url r.url = true ∨ r.note.isSome = true

theorem firstSomeBy_inv {α β} (P : β → Prop) (f : α → Option β)
    (hf : ∀ x r, f x = some r → P r) :
    ∀ (l : List α) (r : β), firstSomeBy f l = some r → P r := by
  intro l
  induction l with
  | nil => intro r h; exact absurd h (by simp [firstSomeBy])
  | cons x xs ih =>
    intro r h
    rw [firstSomeBy] at h
    cases hx : f x with
    | some v =>
      rw [hx] at h
      replace h : v = r := by injection h
      exact hf x r (h ▸ hx)
    | none => rw [hx] at h; exact ih r h

theorem openaiBadJsonGo_inv (ttl : PyStr) :
    ∀ (l : List PyStr) (r : SearchResult),
      openaiBadJsonGo ttl l = some r → resultInv r := by
  intro l
  induction l with
  | nil => intro r h; exact absurd h (by simp [openaiBadJsonGo])
  | cons x xs ih =>
    intro r h
    rw [openaiBadJsonGo] at h
    split at h
    next hv =>
      replace h : (⟨x, ttl, none⟩ : SearchResult) = r := by injection h
      exact Or.inl (h ▸ hv)
    next => exact ih r h

theorem openaiAltsGo_inv (env : NetEnv) (ttl : PyStr) :
    ∀ (l : List PyStr) (r : SearchResult),
      openaiAltsGo env ttl l = some r → resultInv r := by
  intro l
  induction l with
  | nil => intro r h; exact absurd h (by simp [openaiAltsGo])
  | cons x xs ih =>
    intro r h
    rw [openaiAltsGo] at h
    split at h
    next hv =>
      replace h : (⟨x, ttl, none⟩ : SearchResult) = r := by injection h
      simp only [Bool.and_eq_true] at hv
      exact Or.inl (h ▸ hv.1)
    next => exact ih r h

theorem openai_inv (env : NetEnv) (brand model_number appliance_name : Option PyStr)
    (r : SearchResult)
    (h : search_manual_with_openai env brand model_number appliance_name = some r) :
    resultInv r := by
  rw [search_manual_with_openai] at h
  cases henv : env.openai with
  | noKey => rw [henv] at h; exact absurd h (by simp)
  | exc => rw [henv] at h; exact absurd h (by simp)
  | noJsonMatch => rw [henv] at h; exact absurd h (by simp)
  | badJson urls => rw [henv] at h; exact openaiBadJsonGo_inv _ urls r h
  | okJson j =>
    rw [henv] at h
    simp only [] at h
    split at h
    next res hres =>
      replace h : res = r := by injection h
      subst h
      split at hres
      next u0 hpr =>
        split at hres
        next hv =>
          replace hres : (⟨u0, defaultTitle brand model_number, none⟩ : SearchResult) = res := by
            injection hres
          simp only [Bool.and_eq_true] at hv
          rw [← hres]
          exact Or.inl hv.1.2
        next => exact absurd hres (by simp)
      next hpr => exact absurd hres (by simp)
    next hres =>
      split at h
      next res2 halts =>
        replace h : res2 = r := by injection h
        exact openaiAltsGo_inv env _ j.alternative_urls r (h ▸ halts)
      next halts =>
        split at h
        next su hsup =>
          split at h
          next =>
            split at h
            next =>
              replace h : (⟨su, defaultTitle brand model_number ++ " (Support Page)".data,
                  some (supportNote model_number)⟩ : SearchResult) = r := by
                injection h
              rw [← h]
              exact Or.inr rfl
            next => exact absurd h (by simp)
          next => exact absurd h (by simp)
        next hsup => exact absurd h (by simp)

theorem strat1Anchor_inv (model_number : Option PyStr) (dflt : PyStr) (a : Anchor)
    (r : SearchResult) (h : strat1Anchor model_number dflt a = .ok (some r)) :
    resultInv r := by
  rw [strat1Anchor] at h
  simp only [] at h
  repeat' split at h
  all_goals try simp at h
  all_goals
    rename_i hv
    simp only [Bool.and_eq_true] at hv
    rw [← h]
    refine Or.inl ?_
    simpa using hv.2

theorem anchorsLoopExc_inv (f : Anchor → Except PyExc (Option SearchResult))
    (hf : ∀ a r, f a = .ok (some r) → resultInv r) :
    ∀ (l : List Anchor) (r : SearchResult),
      anchorsLoopExc f l = .ok (some r) → resultInv r := by
  intro l
  induction l with
  | nil => intro r h; exact absurd h (by simp [anchorsLoopExc])
  | cons a rest ih =>
    intro r h
    rw [anchorsLoopExc] at h
    split at h
    · simp at h
    next r0 hfa =>
      replace h : some r0 = some r := by injection h
      replace h : r0 = r := by injection h
      exact hf a r (h ▸ hfa)
    next => exact ih r h

theorem strat1Path_inv (env : NetEnv) (model_number : Option PyStr) (dflt : PyStr)
    (path : PyStr) (r : SearchResult)
    (h : strat1Path env model_number dflt path = some r) : resultInv r := by
  rw [strat1Path] at h
  split at h
  next => simp at h
  next resp hresp =>
    split at h
    · split at h
      next => simp at h
      next o hloop =>
        subst h
        exact anchorsLoopExc_inv _ (fun a r => strat1Anchor_inv model_number dflt a r)
          resp.anchors r hloop
    · simp at h

theorem strat1_inv (env : NetEnv) (brand_lower : PyStr) (model_number : Option PyStr)
    (dflt : PyStr) (r : SearchResult)
    (h : strat1 env brand_lower model_number dflt = some r) : resultInv r := by
  rw [strat1] at h
  split at h
  · exact firstSomeBy_inv resultInv _
      (fun p => strat1Path_inv env model_number dflt p) manualPaths r h
  · simp at h

theorem strat2Anchor_inv (libUrl dflt : PyStr) (a : Anchor) (r : SearchResult)
    (h : strat2Anchor libUrl dflt a = some r) : resultInv r := by
  rw [strat2Anchor] at h
  simp only [] at h
  repeat' split at h
  all_goals try simp at h
  all_goals
    rename_i hv
    simp only [Bool.and_eq_true] at hv
    rw [← h]
    refine Or.inl ?_
    simpa using hv.2

theorem strat2Lib_inv (env : NetEnv) (dflt libUrl : PyStr) (r : SearchResult)
    (h : strat2Lib env dflt libUrl = some r) : resultInv r := by
  rw [strat2Lib] at h
  split at h
  next => simp at h
  next resp hresp =>
    split at h
    · exact firstSomeBy_inv resultInv _
        (fun a => strat2Anchor_inv libUrl dflt a) resp.anchors r h
    · simp at h

theorem strat2_inv (env : NetEnv) (brand model_number : Option PyStr) (dflt : PyStr)
    (r : SearchResult) (h : strat2 env brand model_number dflt = some r) :
    resultInv r := by
  rw [strat2] at h
  exact firstSomeBy_inv resultInv _ (fun u => strat2Lib_inv env dflt u)
    (libUrls brand model_number) r h

theorem strat3AnchorStep_inv (env : NetEnv) (dflt : PyStr) (found : List PyStr)
    (a : Anchor) (r : SearchResult)
    (h : (strat3AnchorStep env dflt found a).2 = some r) : resultInv r := by
  rw [strat3AnchorStep] at h
  simp only [] at h
  repeat' split at h
  all_goals try simp at h
  all_goals
    rename_i hex hnc hver
    rw [← h]
    exact Or.inl (extract_some_valid a.href _ hex)

theorem strat3RawStep_inv (env : NetEnv) (dflt : PyStr) (found : List PyStr)
    (m : PyStr) (r : SearchResult)
    (h : (strat3RawStep env dflt found m).2 = some r) : resultInv r := by
  rw [strat3RawStep] at h
  repeat' split at h
  all_goals try simp at h
  all_goals
    rename_i hcond hver
    simp only [Bool.and_eq_true] at hcond
    rw [← h]
    exact Or.inl hcond.1

theorem strat3VedStep_inv (env : NetEnv) (dflt : PyStr) (found : List PyStr)
    (a : Anchor) (r : SearchResult)
    (h : (strat3VedStep env dflt found a).2 = some r) : resultInv r := by
  rw [strat3VedStep] at h
  repeat' split at h
  all_goals try simp at h
  all_goals
    rename_i hex hnc hver
    rw [← h]
    exact Or.inl (extract_some_valid a.href _ hex)

theorem foldStep_inv {α} (f : List PyStr → α → List PyStr × Option SearchResult)
    (hf : ∀ found x r, (f found x).2 = some r → resultInv r) :
    ∀ (l : List α) (found : List PyStr) (r : SearchResult),
      (foldStep f found l).2 = some r → resultInv r := by
  intro l
  induction l with
  | nil => intro found r h; simp [foldStep] at h
  | cons x xs ih =>
    intro found r h
    rw [foldStep] at h
    split at h
    next found2 r0 hfx =>
      replace h : r0 = r := by simpa using h
      subst h
      exact hf found x r0 (by rw [hfx])
    next found2 hfx => exact ih found2 r h

theorem strat3Url_inv (env : NetEnv) (dflt : PyStr) (u : PyStr) (r : SearchResult)
    (h : strat3Url env dflt u = some r) : resultInv r := by
  rw [strat3Url] at h
  split at h
  next => simp at h
  next resp hresp =>
    split at h
    · split at h
      next f1 r1 hfold =>
        replace h : r1 = r := by injection h
        subst h
        exact foldStep_inv _ (fun found a r => strat3AnchorStep_inv env dflt found a r)
          resp.anchors [] r1 (by rw [hfold])
      next found1 hfold =>
        split at h
        next f2 r2 hfold2 =>
          replace h : r2 = r := by injection h
          subst h
          exact foldStep_inv _ (fun found m r => strat3RawStep_inv env dflt found m r)
            (resp.rawP1 ++ resp.rawP2) found1 r2 (by rw [hfold2])
        next found2 hfold2 =>
          exact foldStep_inv _ (fun found a r => strat3VedStep_inv env dflt found a r)
            resp.vedAnchors found2 r h
    · simp at h

theorem strat3_inv (env : NetEnv) (dflt : PyStr) (urls : List PyStr) (r : SearchResult)
    (h : strat3 env dflt urls = some r) : resultInv r := by
  rw [strat3] at h
  exact firstSomeBy_inv resultInv _ (fun u => strat3Url_inv env dflt u) urls r h

theorem search_manual_online_inv (env : NetEnv)
    (brand model_number appliance_name : Option PyStr) (use_openai : Bool)
    (r : SearchResult)
    (h : search_manual_online env brand model_number appliance_name use_openai =
      .ok (some r)) : resultInv r := by
  rw [search_manual_online.eq_def] at h
  simp only [] at h
  split at h
  · simp at h
  · split at h
    next r0 hop =>
      replace h : some r0 = some r := by injection h
      replace h : r0 = r := by injection h
      subst h
      split at hop
      · exact openai_inv env brand model_number appliance_name r0 hop
      · simp at hop
    next hop =>
      split at h
      next r1 h1 =>
        replace h : some r1 = some r := by injection h
        replace h : r1 = r := by injection h
        subst h
        exact strat1_inv env _ model_number _ r1 h1
      next h1 =>
        split at h
        next r2 h2 =>
          replace h : some r2 = some r := by injection h
          replace h : r2 = r := by injection h
          subst h
          exact strat2_inv env brand model_number _ r2 h2
        next h2 =>
          split at h
          next e hurls => simp at h
          next urls hurls =>
            replace h : strat3 env (defaultTitle brand model_number) urls = some r := by
              injection h
            exact strat3_inv env _ urls r h

/-- C1: every result returned by the manual search — whether through the
OpenAI-assisted path (`search_manual_with_openai`) or any scraping
strategy of `search_manual_online` — satisfies the SearchResult invariant:
its url passes `is_valid_pdf_url`, or it carries a `note` marking the
manufacturer support-page fallback. -/
theorem search_result_invariant :
    (∀ (env : NetEnv) (brand model_number appliance_name : Option PyStr)
       (use_openai : Bool) (r : SearchResult),
       search_manual_online env brand model_number appliance_name use_openai =
         .ok (some r) → resultInv r) ∧
    (∀ (env : NetEnv) (brand model_number appliance_name : Option PyStr)
       (r : SearchResult),
       search_manual_with_openai env brand model_number appliance_name = some r →
       resultInv r) :=
  ⟨fun env b m a u r h => search_manual_online_inv env b m a u r h,
   fun env b m a r h => openai_inv env b m a r h⟩

theorem search_result_invariant_witness :
    search_manual_online
        ⟨fun _ => none, fun _ => none,
          .badJson ["https://example.com/manual.pdf".data]⟩
        (some "Bosch".data) (some "WAW285".data) (some "Washer".data) true =
      .ok (some ⟨"https://example.com/manual.pdf".data,
        "Bosch WAW285 Manual".data, none⟩) ∧
    resultInv ⟨"https://example.com/manual.pdf".data,
      "Bosch WAW285 Manual".data, none⟩ ∧
    search_manual_with_openai
        ⟨fun _ => none, fun _ => none,
          .badJson ["https://example.com/manual.pdf".data]⟩
        (some "Bosch".data) (some "WAW285".data) (some "Washer".data) =
      some ⟨"https://example.com/manual.pdf".data,
        "Bosch WAW285 Manual".data, none⟩ :=
  ⟨rfl,
   search_result_invariant.1
     ⟨fun _ => none, fun _ => none,
       .badJson ["https://example.com/manual.pdf".data]⟩
     (some "Bosch".data) (some "WAW285".data) (some "Washer".data) true
     ⟨"https://example.com/manual.pdf".data, "Bosch WAW285 Manual".data, none⟩ rfl,
   rfl⟩
